import Mathlib

/-!
# Verification of the liturgical-calendar generator (`litcalendar.py`)

This file gives a shallow embedding of the calendar-construction pipeline of
`litcalendar.py` and proves/refutes the frozen claims about it.

Modelling conventions:
* A calendar date is its proleptic-Gregorian ordinal (`ℤ`), day 1 being
  January 1 of year 1 — exactly Python's `datetime.date.toordinal()`.
  `weekday d = (d - 1) % 7` with Monday = 0, Sunday = 6, matching
  `datetime.weekday()`.
* Dataframes are lists of `Row` records (`date`, `feast`, `filename`); the
  `year`/`month`/`day`/`dayofweek` columns of the script are pure projections
  of `date` and are recomputed where needed instead of being stored.
* `pandas.DataFrame.replace` with a string→string mapping only ever matches
  the string columns (`feast`, `filename`); `replaceVals` applies the
  substitutions to those two fields.
* `feasts_df.combine_first(df)` (date-indexed): every cell of `feasts_df` is
  non-null and both frames have the same columns, so for each date present in
  `feasts_df` the combined frame holds exactly the `feasts_df` row(s), and for
  every other date the rows of `df`; the result is ordered by date.
  `mergeFeasts` implements exactly that: fixed rows plus the movable rows
  whose date is not a fixed date, stably sorted by date.
* `df.loc['a':'b', 'season'] = s` on the (unique-bound) `feast` index of a
  date-ordered frame is positional label slicing: every row *positioned*
  between the rows labelled `'a'` and `'b'` (inclusive) is assigned season
  `s`.  `setSeasonSlice` implements the successful case; when a bound label
  is absent pandas raises `KeyError` and the script aborts without writing a
  table.  That case is reachable (Easter March 26/27: the Annunciation
  supersedes the `easter-vigil`/`good-friday` bound row in the merge), so
  `setSeasonSlice`'s missing-bound branch (which returns the frame
  unchanged) is *not* faithful there; `seasonSlicesApply` decides whether
  all four slices can be taken, and `finalTable?` returns `some` of the
  annotated table exactly for the runs the script completes, `none` for the
  aborted runs.  Theorems that assert presence of rows in the final output
  are stated over `finalTable?`.
-/

/-! ## Dates: proleptic Gregorian ordinals -/

/-- Gregorian leap-year test (as in Python's `calendar.isleap`). -/
def isLeap (y : ℕ) : Bool :=
  (y % 4 == 0 && y % 100 != 0) || y % 400 == 0

/-- 1 if `y` is a leap year, else 0. -/
def leapDay (y : ℕ) : ℤ := if isLeap y then 1 else 0

/-- Number of leap years among years `1..y-1`. -/
def leapsBefore (y : ℕ) : ℕ := (y - 1) / 4 - (y - 1) / 100 + (y - 1) / 400

/-- Days of year `y` that precede the first day of month `m`. -/
def daysBeforeMonth (y : ℕ) (m : ℕ) : ℤ :=
  match m with
  | 1 => 0
  | 2 => 31
  | 3 => 59 + leapDay y
  | 4 => 90 + leapDay y
  | 5 => 120 + leapDay y
  | 6 => 151 + leapDay y
  | 7 => 181 + leapDay y
  | 8 => 212 + leapDay y
  | 9 => 243 + leapDay y
  | 10 => 273 + leapDay y
  | 11 => 304 + leapDay y
  | 12 => 334 + leapDay y
  | _ => 0

/-- Ordinal of the date `y-m-d` (Python's `date(y, m, d).toordinal()`). -/
def dateToOrdinal (y m d : ℕ) : ℤ :=
  365 * ((y : ℤ) - 1) + (leapsBefore y : ℤ) + daysBeforeMonth y m + d

/-- Day of week of ordinal `d`: Monday = 0 … Sunday = 6 (`datetime.weekday`). -/
def weekday (d : ℤ) : ℤ := (d - 1) % 7

/-! ## Sunday walks (`previous_sundays` / `next_sundays`) -/

/-- One step of the loop in `previous_sundays`:
`sundays[-1] - timedelta(days=sundays[-1].weekday()+1)`, the Sunday strictly
before the argument. -/
def prevSundayStep (d : ℤ) : ℤ := d - (weekday d + 1)

/-- `iterList f a n = [a, f a, f (f a), …]` of length `n`; the list
`sundays = [start, …]` built by the loop in `previous_sundays` is
`iterList prevSundayStep start (n+1)`. -/
def iterList (f : ℤ → ℤ) (a : ℤ) : ℕ → List ℤ
  | 0 => []
  | n + 1 => a :: iterList f (f a) n

/-- `previous_sundays(from_date, n)` without a `season`: build
`[start, S₁, …, Sₙ]`, reverse, drop the trailing anchor (`sundays[:-1]`). -/
def previous_sundays (from_date : ℤ) (n : ℕ) : List ℤ :=
  ((iterList prevSundayStep from_date (n + 1)).reverse).dropLast

/-- `str(i).zfill(2)`. -/
def zfill2 (i : ℕ) : String := if i < 10 then "0" ++ toString i else toString i

/-- The week key `f'{season}{str(i).zfill(2)}'`. -/
def mkKey (season : String) (i : ℕ) : String := season ++ zfill2 i

/-- `previous_sundays(from_date, n, end, season)`: the chain
`[start, S₁, …, Sₙ]` is zipped with labels `range(end+1, 0, -1)`
(truncating like Python's `zip`), then reversed and the anchor dropped. -/
def previous_sundays_labeled (from_date : ℤ) (n : ℕ) (endIdx : ℕ)
    (season : String) : List (ℤ × String) :=
  (((iterList prevSundayStep from_date (n + 1)).zip
      (((List.range' 1 (endIdx + 1)).reverse).map (mkKey season))).reverse).dropLast

/-- `next_sundays(from_date, n)` without a `season`. -/
def next_sundays (from_date : ℤ) (n : ℕ) : List ℤ :=
  (List.range n).map (fun i : ℕ =>
    from_date + (if 6 - weekday from_date = 0 then 7 else 6 - weekday from_date) + 7 * (i : ℤ))

/-- `next_sundays(from_date, n, start, season)`: labels `range(start, n+start)`. -/
def next_sundays_labeled (from_date : ℤ) (n : ℕ) (start : ℕ)
    (season : String) : List (ℤ × String) :=
  (next_sundays from_date n).zip ((List.range n).map (fun i => mkKey season (start + i)))

/-! ## Rows and `process_output` -/

/-- One row of the calendar table: the `date`, `feast` and `filename` columns
(`year`/`month`/`day`/`dayofweek` are projections of `date`). -/
structure Row where
  date : ℤ
  feast : String
  filename : String
deriving DecidableEq, Repr

/-- `''.join(filter(str.isalpha, s))`. -/
def lettersOf (s : String) : String := ⟨s.data.filter Char.isAlpha⟩

/-- `process_output(weeks, dir)`: attach `filename = dir + '/' + feast + '.qmd'`,
where `dir` is inferred from the first feast key when not given (`'infer'`). -/
def process_output (weeks : List (ℤ × String)) (dir : Option String) : List Row :=
  let d := match dir with
    | some s => s
    | none => lettersOf ((weeks.headD (0, "")).2)
  weeks.map (fun w => ⟨w.1, w.2, d ++ "/" ++ w.2 ++ ".qmd"⟩)

/-- `df.replace({src₁: tgt₁, …})` for string values: applied to the string
columns `feast` and `filename` of every row. -/
def replaceVals (subs : List (String × String)) (rows : List Row) : List Row :=
  rows.map (fun r =>
    { r with
      feast := subs.foldl (fun s p => if s = p.1 then p.2 else s) r.feast
      filename := subs.foldl (fun s p => if s = p.1 then p.2 else s) r.filename })

/-- `df['date'][key]` on the `feast`-indexed frame: date of the first row
whose feast is `key` (0 when absent; pandas raises there — unreachable in the
runs considered). -/
def lookupDate (rows : List Row) (k : String) : ℤ :=
  match rows.find? (fun r => r.feast == k) with
  | some r => r.date
  | none => 0

/-! ## Season builders -/

/-- Advent: `previous_sundays(christmas, 4, season='advent')`, inferred dir. -/
def adventRows (christmas : ℤ) : List Row :=
  process_output (previous_sundays_labeled christmas 4 4 "advent") none

/-- Christmas: branch on `christmas.weekday() == 6`, then append the four
Christmas day and eve rows; `dir='christmas'`. -/
def christmasRows (christmas : ℤ) : List Row :=
  let base :=
    if weekday christmas = 6 then
      (next_sundays christmas 2).zip ["epiphany", "baptism"]
    else
      (next_sundays christmas 3).zip ["holy-family", "epiphany", "baptism"]
  process_output
    (base ++ [(christmas, "christmas-dawn"), (christmas, "christmas-day"),
              (christmas - 1, "christmas-eve"), (christmas - 1, "christmas-midnight")])
    (some "christmas")

/-- Lent Sundays before the rename. -/
def lentRowsRaw (easter : ℤ) : List Row :=
  process_output (previous_sundays_labeled easter 6 6 "lent") none

/-- Lent after `lent_df.replace({'lent06': 'palm-sunday', …})`. -/
def lentRows (easter : ℤ) : List Row :=
  replaceVals [("lent06", "palm-sunday"), ("lent/lent06.qmd", "holy-week/palm-sunday.qmd")]
    (lentRowsRaw easter)

/-- The `triduum_df` rows; `ash_wed` comes from the `lent01` lookup. -/
def triduumRows (easter : ℤ) : List Row :=
  let easter_vigil := easter - 1
  let good_fri := easter_vigil - 1
  let holy_thurs := good_fri - 1
  let ash_wed := lookupDate (lentRows easter) "lent01" - 4
  [⟨ash_wed, "ash-wednesday", "lent/ash-wednesday.qmd"⟩,
   ⟨holy_thurs, "holy-thursday", "holy-week/holy-thursday.qmd"⟩,
   ⟨good_fri, "good-friday", "holy-week/good-friday.qmd"⟩,
   ⟨easter_vigil, "easter-vigil", "holy-week/easter-vigil.qmd"⟩]

/-- `easter_df` before the key substitutions: nine labelled Sundays starting
at index 2 plus Easter Sunday itself, inferred dir. -/
def easterRowsBase (easter : ℤ) : List Row :=
  process_output (next_sundays_labeled easter 9 2 "easter" ++ [(easter, "easter")]) none

/-- `easter_df` after the `easter08/09/10` substitutions. -/
def easterRowsRenamed (easter : ℤ) : List Row :=
  replaceVals
    [("easter08", "pentecost"), ("easter/easter08.qmd", "easter/pentecost.qmd"),
     ("easter09", "holy-trinity"), ("easter/easter09.qmd", "feasts/holy-trinity.qmd"),
     ("easter10", "corpus-christi"), ("easter/easter10.qmd", "feasts/corpus-christi.qmd")]
    (easterRowsBase easter)

/-- `pentecost = easter_df.loc[easter_df.feast=='pentecost'].date`. -/
def pentecostDate (easter : ℤ) : ℤ := lookupDate (easterRowsRenamed easter) "pentecost"

/-- `easter_df` after the vigil rows and the Ascension branch: in Thursday
mode a new `ascension` row 39 days after Easter is appended; otherwise
`easter07` is renamed to `ascension`. -/
def easterRows (easter : ℤ) (ascension_thursday : Bool) : List Row :=
  let pv := pentecostDate easter - 1
  let withVigils := easterRowsRenamed easter ++
    [⟨pv, "pentecost-vigil", "easter/pentecost-vigil.qmd"⟩,
     ⟨pv, "pentecost-vigil", "easter/pentecost-vigil-extended.qmd"⟩]
  if ascension_thursday then
    withVigils ++ [⟨easter + 39, "ascension", "easter/ascension.qmd"⟩]
  else
    replaceVals [("easter07", "ascension"), ("easter/easter07.qmd", "easter/ascension.qmd")]
      withVigils

/-- The master frame just before Ordinary Time is appended
(advent ++ christmas ++ lent ++ triduum ++ easter, the concat order of the
script); the `baptism`/`ash-wednesday`/`corpus-christi` lookups read it. -/
def movablePreOT (christmas easter : ℤ) (ascension_thursday : Bool) : List Row :=
  adventRows christmas ++ christmasRows christmas ++ lentRows easter ++
    triduumRows easter ++ easterRows easter ascension_thursday

/-- `(df['date']['ash-wednesday'] - df['date']['baptism']).days // 7`. -/
def numWinterWeeks (christmas easter : ℤ) (ascension_thursday : Bool) : ℤ :=
  (lookupDate (movablePreOT christmas easter ascension_thursday) "ash-wednesday" -
   lookupDate (movablePreOT christmas easter ascension_thursday) "baptism").fdiv 7

/-- Winter Ordinary Time: forward walk from Baptism starting at week 2,
`dir='ordinary-time'`. -/
def otWinterRows (christmas easter : ℤ) (ascension_thursday : Bool) : List Row :=
  process_output
    (next_sundays_labeled
      (lookupDate (movablePreOT christmas easter ascension_thursday) "baptism")
      (numWinterWeeks christmas easter ascension_thursday).toNat 2 "ot")
    (some "ordinary-time")

/-- `christ_the_king = previous_sundays(next_christmas, n=5)[0]`. -/
def christTheKing (y : ℕ) : ℤ :=
  (previous_sundays (dateToOrdinal y 12 25) 5).headD 0

/-- `(christ_the_king - df['date']['corpus-christi']).days // 7`. -/
def numSummerWeeks (y : ℕ) (christmas easter : ℤ) (ascension_thursday : Bool) : ℤ :=
  (christTheKing y -
   lookupDate (movablePreOT christmas easter ascension_thursday) "corpus-christi").fdiv 7

/-- Summer Ordinary Time: backward walk of `num_summer_weeks - 1` Sundays
from Christ the King, numbered down from 33; dir inferred (`'ot'`). -/
def otSummerRows (y : ℕ) (christmas easter : ℤ) (ascension_thursday : Bool) : List Row :=
  process_output
    (previous_sundays_labeled (christTheKing y)
      (numSummerWeeks y christmas easter ascension_thursday - 1).toNat 33 "ot")
    none

/-- `np.array(calendar.monthcalendar(year, 11))[:,3].max()`: column 3 of the
Monday-first month grid holds each week's Thursday day-number (0 as padding),
so the maximum is the largest November day falling on a Thursday. -/
def thanksgivingDay (y : ℕ) : ℕ :=
  (((List.range' 1 30).filter (fun d => weekday (dateToOrdinal y 11 d) == 3)).foldr max 0)

/-- `others_df`: Sacred Heart (Pentecost + 19), Christ the King and
Thanksgiving, with the Christ-the-King filename depending on whether it falls
before Thanksgiving. -/
def othersRows (y : ℕ) (easter : ℤ) : List Row :=
  let sacred_heart := pentecostDate easter + 19
  let thanksgiving := dateToOrdinal y 11 (thanksgivingDay y)
  let ctk := christTheKing y
  if ctk < thanksgiving then
    [⟨sacred_heart, "sacred-heart", "feasts/sacred-heart.qmd"⟩,
     ⟨ctk, "christ-the-king", "ordinary-time/christ-the-king-before-thanksgiving.qmd"⟩,
     ⟨thanksgiving, "thanksgiving", "ordinary-time/thanksgiving.qmd"⟩]
  else
    [⟨sacred_heart, "sacred-heart", "feasts/sacred-heart.qmd"⟩,
     ⟨ctk, "christ-the-king", "ordinary-time/christ-the-king-after-thanksgiving.qmd"⟩,
     ⟨thanksgiving, "thanksgiving", "ordinary-time/thanksgiving.qmd"⟩]

/-! ## Fixed feasts and the merge -/

/-- The static `feasts` table (year-anchored fixed feasts and solemnities). -/
def feastsRegistry (y : ℕ) : List Row :=
  [⟨dateToOrdinal y 2 2, "presentation", "feasts/feb02-presentation.qmd"⟩,
   ⟨dateToOrdinal y 8 6, "transfiguration", "feasts/aug06-transfiguration.qmd"⟩,
   ⟨dateToOrdinal y 9 14, "holy-cross", "feasts/sep14-holy-cross.qmd"⟩,
   ⟨dateToOrdinal y 11 2, "all-souls", "feasts/nov02-all-souls.qmd"⟩,
   ⟨dateToOrdinal y 11 9, "john-lateran", "feasts/nov09-john-lateran.qmd"⟩,
   ⟨dateToOrdinal (y - 1) 12 8, "immaculate-conception", "feasts/dec08-immaculate-conception.qmd"⟩,
   ⟨dateToOrdinal y 1 1, "mary-mother-of-god", "christmas/mary-mother-of-god.qmd"⟩,
   ⟨dateToOrdinal y 3 19, "stjoseph", "feasts/st.joseph.qmd"⟩,
   ⟨dateToOrdinal y 3 25, "annunciation", "feasts/mar25-annunciation.qmd"⟩,
   ⟨dateToOrdinal y 6 23, "nativity-john-baptist-vigil", "feasts/jun23-nativity-john-baptist-vigil.qmd"⟩,
   ⟨dateToOrdinal y 6 24, "nativity-john-baptist", "feasts/jun24-nativity-john-baptist.qmd"⟩,
   ⟨dateToOrdinal y 6 28, "peter-paul-vigil", "feasts/jun28-peter-paul-vigil.qmd"⟩,
   ⟨dateToOrdinal y 6 29, "peter-paul", "feasts/jun29-peter-paul.qmd"⟩,
   ⟨dateToOrdinal y 8 14, "assumption-vigil", "feasts/aug14-assumption-vigil.qmd"⟩,
   ⟨dateToOrdinal y 8 15, "assumption", "feasts/aug15-assumption.qmd"⟩,
   ⟨dateToOrdinal y 11 1, "all-saints", "feasts/nov01-all-saints.qmd"⟩]

/-- `needle` occurs as a contiguous substring of `hay`
(Python's `'vigil' in feast` / `.str.contains('vigil')`). -/
def containsSub (needle : List Char) : List Char → Bool
  | [] => needle.isEmpty
  | c :: rest => needle.isPrefixOf (c :: rest) || containsSub needle rest

/-- The dropped-vigil condition:
`feast.str.contains('vigil') & (dayofweek == 6)`. -/
def vigilOnSunday (r : Row) : Bool :=
  containsSub "vigil".toList r.feast.toList && weekday r.date == 6

/-- `feasts_df` after dropping vigils that fall on a Sunday. -/
def fixedAfterDrop (y : ℕ) : List Row :=
  (feastsRegistry y).filter (fun r => !(vigilOnSunday r))

/-- Stable insertion of a row into a date-sorted list. -/
def insertByDate (r : Row) : List Row → List Row
  | [] => [r]
  | x :: xs => if r.date ≤ x.date then r :: x :: xs else x :: insertByDate r xs

/-- Stable sort by `date` (pandas `set_index('date'); sort_index()` /
the date-sorted index union of `combine_first`). -/
def sortByDate (l : List Row) : List Row := l.foldr insertByDate []

/-- `feasts_df.combine_first(df)` on the date index: all `feasts_df` cells are
non-null and the two frames have identical columns, so each date present in
`feasts_df` contributes exactly its fixed row(s) while every other date keeps
the rows of `df`; rows come out ordered by date. -/
def mergeFeasts (fixed movable : List Row) : List Row :=
  sortByDate (fixed ++ movable.filter (fun r => !(fixed.any (fun f => f.date == r.date))))

/-! ## Season assignment -/

/-- A fully annotated row (the `season` column added at the end). -/
structure SRow where
  date : ℤ
  feast : String
  filename : String
  season : String
deriving DecidableEq, Repr

/-- Initial season value: `df['season'] = 'ordinary-time'`. -/
def toSRow (r : Row) : SRow := ⟨r.date, r.feast, r.filename, "ordinary-time"⟩

/-- Forget the season again. -/
def SRow.toRow (r : SRow) : Row := ⟨r.date, r.feast, r.filename⟩

/-- `mapWithIdx f k [a₀, a₁, …] = [f k a₀, f (k+1) a₁, …]`. -/
def mapWithIdx (f : ℕ → SRow → SRow) : ℕ → List SRow → List SRow
  | _, [] => []
  | k, a :: as => f k a :: mapWithIdx f (k + 1) as

/-- `df.loc[startKey:stopKey, 'season'] = sea` on the `feast` index of a
date-ordered frame: positional slicing between the rows labelled `startKey`
and `stopKey` (inclusive).  When a bound label is missing this returns the
frame unchanged, whereas pandas raises `KeyError` and the script aborts —
so this definition is faithful only when both bounds are present; the
aborting runs are modelled by `finalTable?` below. -/
def setSeasonSlice (startKey stopKey sea : String) (rows : List SRow) : List SRow :=
  match rows.findIdx? (fun r => r.feast == startKey),
        rows.findIdx? (fun r => r.feast == stopKey) with
  | some i, some j =>
      mapWithIdx (fun k r => if i ≤ k ∧ k ≤ j then { r with season := sea } else r) 0 rows
  | _, _ => rows

/-- Lines 456–460: default `'ordinary-time'`, then the four positional
season slices in order. -/
def addSeasons (rows : List Row) : List SRow :=
  setSeasonSlice "easter-vigil" "pentecost" "easter"
    (setSeasonSlice "ash-wednesday" "good-friday" "lent"
      (setSeasonSlice "christmas-eve" "baptism" "christmas"
        (setSeasonSlice "advent01" "advent04" "advent"
          (rows.map toSRow))))

/-! ## The full pipeline -/

/-- The complete movable-observance table (everything concatenated into `df`
before the fixed-feast merge). -/
def movableTable (y : ℕ) (easter : ℤ) (ascension_thursday : Bool) : List Row :=
  let christmas := dateToOrdinal (y - 1) 12 25
  movablePreOT christmas easter ascension_thursday ++
    otWinterRows christmas easter ascension_thursday ++
    otSummerRows y christmas easter ascension_thursday ++
    othersRows y easter

/-- The table after the fixed-feast merge (`feasts_df.combine_first(df)`). -/
def mergedTable (y : ℕ) (easter : ℤ) (ascension_thursday : Bool) : List Row :=
  mergeFeasts (fixedAfterDrop y) (movableTable y easter ascension_thursday)

/-- The final annotated table (season column assigned), assuming all four
season slices can be taken. -/
def finalTable (y : ℕ) (easter : ℤ) (ascension_thursday : Bool) : List SRow :=
  addSeasons (mergedTable y easter ascension_thursday)

/-- The eight bound labels of the four season slices (lines 457-460).  A
pandas label slice raises `KeyError` when a bound label is absent from the
`feast` index; this predicate holds exactly when every bound row is present
in the merged table, i.e. when all four `.loc` season writes succeed. -/
def seasonSlicesApply (rows : List Row) : Bool :=
  ["advent01", "advent04", "christmas-eve", "baptism", "ash-wednesday", "good-friday",
   "easter-vigil", "pentecost"].all (fun k => rows.any (fun r => r.feast == k))

/-- The script's observable output: `some` of the annotated table when the
season assignment completes, `none` when a missing slice bound makes the
script abort with `KeyError` before writing anything (this happens for
valid Easter dates March 26 and March 27, where the Annunciation supersedes
the `easter-vigil` resp. `good-friday` row). -/
def finalTable? (y : ℕ) (easter : ℤ) (ascension_thursday : Bool) : Option (List SRow) :=
  if seasonSlicesApply (mergedTable y easter ascension_thursday) then
    some (finalTable y easter ascension_thursday)
  else
    none

/-- A valid program input: `easter` is the ordinal of a Sunday lying in the
astronomically possible Easter window (March 22 – April 25) of year `y ≥ 2`. -/
def ValidEaster (y : ℕ) (easter : ℤ) : Prop :=
  2 ≤ y ∧ weekday easter = 6 ∧
    dateToOrdinal y 3 22 ≤ easter ∧ easter ≤ dateToOrdinal y 4 25

/-! ## Definitions taken from the specification's words
(for refinement comparisons; the source is the authority elsewhere) -/

/-- Modelled from the spec: `season` "derived from `feast_key` membership in
season-specific key ranges" — the season a key's own range dictates; keys in
no season range get `ordinary-time`. -/
def seasonByKeyRange (k : String) : String :=
  if k ∈ ["advent01", "advent02", "advent03", "advent04"] then "advent"
  else if k ∈ ["christmas-eve", "christmas-midnight", "christmas-dawn", "christmas-day",
               "holy-family", "epiphany", "baptism"] then "christmas"
  else if k ∈ ["ash-wednesday", "lent01", "lent02", "lent03", "lent04", "lent05",
               "palm-sunday", "holy-thursday", "good-friday"] then "lent"
  else if k ∈ ["easter-vigil", "easter", "easter02", "easter03", "easter04", "easter05",
               "easter06", "easter07", "ascension", "pentecost-vigil", "pentecost"] then "easter"
  else "ordinary-time"

/-- Modelled from the spec: "the fourth Thursday of November (Thanksgiving,
computed from the month's weekday grid, not a fixed day number)". -/
def fourthThursdayNovember (y : ℕ) : ℕ :=
  ((((List.range' 1 30).filter (fun d => weekday (dateToOrdinal y 11 d) == 3)).drop 3).headD 0)

/-- The date-sorted-list invariant maintained by `sortByDate`. -/
def SortedByDate (l : List Row) : Prop := List.Pairwise (fun a b => a.date ≤ b.date) l

/-- Rows of a table carrying a given date, in table order. -/
def rowsAt (d : ℤ) (rows : List Row) : List Row := rows.filter (fun r => r.date == d)

/-- The number of summer Ordinary Time Sundays the pipeline emits,
`num_summer_weeks - 1`. -/
def otSummerCount (y : ℕ) (E : ℤ) (b : Bool) : ℕ :=
  (numSummerWeeks y (dateToOrdinal (y - 1) 12 25) E b - 1).toNat

/-- True when the slice starting at `key` begins strictly after position `j`
(or has no start row at all, making the slice a no-op). -/
def sliceStartsAfter (rows : List SRow) (key : String) (j : ℕ) : Bool :=
  match rows.findIdx? (fun r => r.feast == key) with
  | some i => decide (j < i)
  | none => true

/-! ## Arithmetic facts about the date model -/

theorem leapDay_bounds (y : ℕ) : 0 ≤ leapDay y ∧ leapDay y ≤ 1 := by
  unfold leapDay; split <;> omega

theorem leapsBefore_succ (y : ℕ) (hy : 2 ≤ y) :
    (leapsBefore y : ℤ) = (leapsBefore (y - 1) : ℤ) + leapDay (y - 1) := by
  unfold leapsBefore leapDay isLeap
  rcases Nat.exists_eq_add_of_le hy with ⟨k, rfl⟩
  split
  · rename_i h
    simp only [beq_iff_eq, bne_iff_ne, ne_eq, Bool.or_eq_true, Bool.and_eq_true,
      decide_eq_true_eq] at h
    push_cast
    omega
  · rename_i h
    simp only [beq_iff_eq, bne_iff_ne, ne_eq, Bool.or_eq_true, Bool.and_eq_true,
      decide_eq_true_eq] at h
    push_cast
    omega

theorem weekday_lt (d : ℤ) : 0 ≤ weekday d ∧ weekday d < 7 := by
  unfold weekday; omega

theorem prevSundayStep_weekday (d : ℤ) : weekday (prevSundayStep d) = 6 := by
  unfold prevSundayStep weekday; omega

theorem prevSundayStep_lt (d : ℤ) : d - 7 ≤ prevSundayStep d ∧ prevSundayStep d < d := by
  unfold prevSundayStep weekday; omega

theorem prevSundayStep_of_sunday (d : ℤ) (h : weekday d = 6) : prevSundayStep d = d - 7 := by
  unfold prevSundayStep; unfold weekday at h ⊢; omega

theorem iterList_sunday (n : ℕ) : ∀ x : ℤ, weekday x = 6 →
    iterList prevSundayStep x n = (List.range n).map (fun i : ℕ => x - 7 * (i : ℤ)) := by
  induction n with
  | zero => intro x _; rfl
  | succ n ih =>
    intro x hx
    rw [iterList, prevSundayStep_of_sunday x hx, ih (x - 7) (by unfold weekday at hx ⊢; omega),
      List.range_succ_eq_map, List.map_cons, List.map_map]
    refine congrArg₂ List.cons (by ring) (List.map_congr_left fun a _ => ?_)
    simp only [Function.comp_apply, Nat.succ_eq_add_one]
    push_cast
    ring

theorem reverse_map_range {α : Type} (f : ℕ → α) (n : ℕ) :
    ((List.range n).map f).reverse = (List.range n).map (fun i => f (n - 1 - i)) := by
  conv_lhs => rw [List.range_eq_range']
  rw [← List.map_reverse, List.reverse_range', List.map_map]
  refine List.map_congr_left fun a ha => ?_
  simp only [Function.comp_apply]
  congr 1
  omega

theorem previous_sundays_eq (d : ℤ) (n : ℕ) :
    previous_sundays d n =
      (List.range n).map (fun i : ℕ => prevSundayStep d - 7 * ((n - 1 - i : ℕ) : ℤ)) := by
  unfold previous_sundays
  rw [show n + 1 = Nat.succ n from rfl, iterList,
    iterList_sunday n (prevSundayStep d) (prevSundayStep_weekday d),
    List.reverse_cons, List.dropLast_concat, reverse_map_range]

theorem zip_map_range' {α β : Type} (f : ℕ → α) (g : ℕ → β) :
    ∀ (n m s : ℕ), n ≤ m →
      ((List.range' s n).map f).zip ((List.range' s m).map g) =
        (List.range' s n).map (fun i => (f i, g i)) := by
  intro n
  induction n with
  | zero => intro m s _; simp
  | succ n ih =>
    intro m s hnm
    match m, hnm with
    | m + 1, hnm =>
      rw [List.range'_succ, List.range'_succ, List.map_cons, List.map_cons, List.zip_cons_cons,
        List.map_cons, ih m (s + 1) (by omega)]

theorem zip_map_range {α β : Type} (f : ℕ → α) (g : ℕ → β) (n m : ℕ) (h : n ≤ m) :
    ((List.range n).map f).zip ((List.range m).map g) =
      (List.range n).map (fun i => (f i, g i)) := by
  rw [List.range_eq_range', List.range_eq_range', zip_map_range' f g n m 0 h]

theorem previous_sundays_labeled_eq (d : ℤ) (n e : ℕ) (sea : String) (h : n ≤ e) :
    previous_sundays_labeled d n e sea =
      (List.range n).map (fun i : ℕ =>
        (prevSundayStep d - 7 * ((n - 1 - i : ℕ) : ℤ), mkKey sea (e - (n - 1 - i)))) := by
  unfold previous_sundays_labeled
  have hlab : ((List.range' 1 (e + 1)).reverse).map (mkKey sea) =
      (List.range (e + 1)).map (fun i => mkKey sea (e + 1 - i)) := by
    rw [List.reverse_range', List.map_map]
    refine List.map_congr_left fun a ha => ?_
    simp only [Function.comp_apply]
    congr 1
    omega
  rw [hlab, show n + 1 = Nat.succ n from rfl, iterList,
    iterList_sunday n (prevSundayStep d) (prevSundayStep_weekday d),
    List.range_succ_eq_map e, List.map_cons, List.zip_cons_cons, List.map_map,
    zip_map_range _ _ n e h, List.reverse_cons, List.dropLast_concat, reverse_map_range]
  refine List.map_congr_left fun a ha => ?_
  simp only [Function.comp_apply, Nat.succ_eq_add_one]
  congr 2
  omega

theorem next_sundays_sunday (d : ℤ) (h : weekday d = 6) (n : ℕ) :
    next_sundays d n = (List.range n).map (fun i : ℕ => d + 7 + 7 * (i : ℤ)) := by
  unfold next_sundays
  rw [h]
  norm_num

theorem insertByDate_perm (r : Row) (l : List Row) : (insertByDate r l).Perm (r :: l) := by
  induction l with
  | nil => simp [insertByDate]
  | cons x xs ih =>
    unfold insertByDate
    split
    · exact List.Perm.refl _
    · exact ((ih.cons x).trans (List.Perm.swap r x xs))

theorem sortByDate_perm (l : List Row) : (sortByDate l).Perm l := by
  induction l with
  | nil => simp [sortByDate]
  | cons x xs ih =>
    have : sortByDate (x :: xs) = insertByDate x (sortByDate xs) := rfl
    rw [this]
    exact (insertByDate_perm x (sortByDate xs)).trans (ih.cons x)

theorem mem_sortByDate {r : Row} {l : List Row} : r ∈ sortByDate l ↔ r ∈ l :=
  (sortByDate_perm l).mem_iff

theorem insertByDate_sorted (r : Row) (l : List Row) (h : SortedByDate l) :
    SortedByDate (insertByDate r l) := by
  induction l with
  | nil => simp [insertByDate, SortedByDate]
  | cons x xs ih =>
    rw [SortedByDate, List.pairwise_cons] at h
    obtain ⟨hx, hxs⟩ := h
    unfold insertByDate
    split
    · rename_i hle
      refine List.Pairwise.cons ?_ (List.Pairwise.cons hx hxs)
      intro b hb
      rcases List.mem_cons.mp hb with rfl | hb
      · exact hle
      · exact le_trans hle (hx b hb)
    · rename_i hlt
      refine List.Pairwise.cons ?_ (ih hxs)
      intro b hb
      rcases List.mem_cons.mp ((insertByDate_perm r xs).mem_iff.mp hb) with rfl | h1
      · omega
      · exact hx b h1

theorem sortByDate_sorted (l : List Row) : SortedByDate (sortByDate l) := by
  induction l with
  | nil => simp [sortByDate, SortedByDate]
  | cons x xs ih => exact insertByDate_sorted x (sortByDate xs) ih

theorem sortByDate_eq_of_sorted (l : List Row) (h : SortedByDate l) : sortByDate l = l := by
  induction l with
  | nil => rfl
  | cons x xs ih =>
    rw [SortedByDate, List.pairwise_cons] at h
    obtain ⟨hx, hxs⟩ := h
    have : sortByDate (x :: xs) = insertByDate x (sortByDate xs) := rfl
    rw [this, ih hxs]
    cases xs with
    | nil => rfl
    | cons y ys =>
      unfold insertByDate
      rw [if_pos (hx y (List.mem_cons_self y ys))]

theorem sortByDate_idem (l : List Row) : sortByDate (sortByDate l) = sortByDate l :=
  sortByDate_eq_of_sorted _ (sortByDate_sorted l)

theorem sortByDate_append (a b : List Row) :
    sortByDate (a ++ b) = a.foldr insertByDate (sortByDate b) := by
  unfold sortByDate
  rw [List.foldr_append]

theorem insertByDate_eq_cons (r : Row) (l : List Row) (h : ∀ a ∈ l, r.date ≤ a.date) :
    insertByDate r l = r :: l := by
  cases l with
  | nil => rfl
  | cons x xs =>
    unfold insertByDate
    rw [if_pos (h x (List.mem_cons_self x xs))]

theorem filter_insertByDate (q : Row → Bool) (r : Row) (l : List Row) (h : SortedByDate l) :
    (insertByDate r l).filter q =
      if q r then insertByDate r (l.filter q) else l.filter q := by
  induction l with
  | nil =>
    cases hq : q r <;> simp [insertByDate, List.filter, hq]
  | cons x xs ih =>
    rw [SortedByDate, List.pairwise_cons] at h
    obtain ⟨hx, hxs⟩ := h
    by_cases hle : r.date ≤ x.date
    · have h1 : insertByDate r (x :: xs) = r :: x :: xs := by
        unfold insertByDate
        rw [if_pos hle]
      have h2 : insertByDate r ((x :: xs).filter q) = r :: (x :: xs).filter q := by
        apply insertByDate_eq_cons
        intro a ha
        rcases List.mem_cons.mp (List.mem_filter.mp ha).1 with rfl | ha2
        · exact hle
        · exact le_trans hle (hx a ha2)
      rw [h1, h2]
      cases hq : q r <;> simp [List.filter_cons, hq]
    · have h1 : insertByDate r (x :: xs) = x :: insertByDate r xs := by
        simp only [insertByDate]
        rw [if_neg hle]
      rw [h1]
      cases hq : q r
      · cases hqx : q x <;> simp [List.filter_cons, hq, hqx, ih hxs]
      · cases hqx : q x
        · simp [List.filter_cons, hq, hqx, ih hxs]
        · have h3 : insertByDate r (x :: xs.filter q) = x :: insertByDate r (xs.filter q) := by
            simp only [insertByDate]
            rw [if_neg hle]
          simp [List.filter_cons, hq, hqx, ih hxs, h3]

theorem filter_sortByDate (q : Row → Bool) (l : List Row) :
    (sortByDate l).filter q = sortByDate (l.filter q) := by
  induction l with
  | nil => rfl
  | cons x xs ih =>
    have h1 : sortByDate (x :: xs) = insertByDate x (sortByDate xs) := rfl
    rw [h1, filter_insertByDate q x (sortByDate xs) (sortByDate_sorted xs), ih]
    cases hq : q x
    · rw [if_neg (by simp [hq]), List.filter_cons_of_neg (by simp [hq])]
    · rw [if_pos (by simp [hq]), List.filter_cons_of_pos (by simp [hq])]
      rfl

theorem mem_mergeFeasts {r : Row} {fixed movable : List Row} :
    r ∈ mergeFeasts fixed movable → r ∈ fixed ∨ r ∈ movable := by
  intro h
  unfold mergeFeasts at h
  rcases List.mem_append.mp (mem_sortByDate.mp h) with h1 | h1
  · exact Or.inl h1
  · exact Or.inr (List.mem_filter.mp h1).1

theorem mergeFeasts_mem_movable {r : Row} {fixed movable : List Row}
    (hf : ∀ g ∈ fixed, g.date ≠ r.date) (hm : r ∈ movable) :
    r ∈ mergeFeasts fixed movable := by
  unfold mergeFeasts
  refine mem_sortByDate.mpr (List.mem_append.mpr (Or.inr (List.mem_filter.mpr ⟨hm, ?_⟩)))
  simp only [Bool.not_eq_eq_eq_not, Bool.not_true, List.any_eq_false]
  intro g hg
  simpa using hf g hg

theorem mergeFeasts_mem_fixed {r : Row} {fixed movable : List Row} (hf : r ∈ fixed) :
    r ∈ mergeFeasts fixed movable := by
  unfold mergeFeasts
  exact mem_sortByDate.mpr (List.mem_append.mpr (Or.inl hf))

/-- Re-merging the same fixed registry is a no-op (the heart of claim C6). -/
theorem mergeFeasts_idem (fixed movable : List Row) :
    mergeFeasts fixed (mergeFeasts fixed movable) = mergeFeasts fixed movable := by
  unfold mergeFeasts
  set q : Row → Bool := fun r => !(fixed.any (fun f => f.date == r.date)) with hq
  have hfix : fixed.filter q = [] := by
    apply List.filter_eq_nil_iff.mpr
    intro a ha
    have h1 : fixed.any (fun f => f.date == a.date) = true :=
      List.any_eq_true.mpr ⟨a, ha, by simp⟩
    simp [hq, h1]
  have hmov : (movable.filter q).filter q = movable.filter q := by
    rw [List.filter_filter]
    apply List.filter_congr
    intro a ha
    simp [Bool.and_self]
  rw [filter_sortByDate, List.filter_append, hfix, hmov, List.nil_append,
    sortByDate_append, sortByDate_idem, ← sortByDate_append]

theorem sortByDate_rowsAt (d : ℤ) (l : List Row) : sortByDate (rowsAt d l) = rowsAt d l := by
  apply sortByDate_eq_of_sorted
  unfold SortedByDate rowsAt
  induction l with
  | nil => simp
  | cons x xs ih =>
    by_cases hx : x.date = d
    · rw [List.filter_cons_of_pos (by simp [hx])]
      refine List.Pairwise.cons ?_ ih
      intro b hb
      have : b.date = d := by simpa using (List.mem_filter.mp hb).2
      omega
    · rw [List.filter_cons_of_neg (by simp [hx])]
      exact ih

theorem rowsAt_mergeFeasts_of_fixed (d : ℤ) (fixed movable : List Row)
    (h : d ∈ fixed.map (fun r => r.date)) :
    rowsAt d (mergeFeasts fixed movable) = rowsAt d fixed := by
  unfold mergeFeasts
  have h1 : rowsAt d (movable.filter (fun r => !(fixed.any (fun f => f.date == r.date)))) = [] := by
    apply List.filter_eq_nil_iff.mpr
    intro a ha
    rcases List.mem_filter.mp ha with ⟨_, ha2⟩
    simp only [List.any_eq_false, Bool.not_eq_eq_eq_not, Bool.not_true] at ha2
    rcases List.mem_map.mp h with ⟨g, hg, hgd⟩
    intro had
    have h2 := ha2 g hg
    simp only [beq_iff_eq] at h2
    simp only [beq_iff_eq] at had
    have hgd2 : g.date = d := hgd
    omega
  show rowsAt d (sortByDate _) = _
  rw [show rowsAt d (sortByDate (fixed ++ _)) =
        sortByDate (rowsAt d (fixed ++ _)) from filter_sortByDate _ _]
  unfold rowsAt at h1 ⊢
  rw [List.filter_append]
  rw [show List.filter (fun r => r.date == d)
        (List.filter (fun r => !fixed.any fun f => f.date == r.date) movable) = [] from h1]
  rw [List.append_nil]
  exact sortByDate_rowsAt d fixed

theorem rowsAt_mergeFeasts_of_movable (d : ℤ) (fixed movable : List Row)
    (h : d ∉ fixed.map (fun r => r.date)) :
    rowsAt d (mergeFeasts fixed movable) = rowsAt d movable := by
  unfold mergeFeasts
  have h0 : rowsAt d fixed = [] := by
    apply List.filter_eq_nil_iff.mpr
    intro a ha
    simp only [beq_iff_eq]
    intro had
    exact h (List.mem_map.mpr ⟨a, ha, had⟩)
  have h1 : rowsAt d (movable.filter (fun r => !(fixed.any (fun f => f.date == r.date)))) =
      rowsAt d movable := by
    unfold rowsAt
    rw [List.filter_filter]
    apply List.filter_congr
    intro a ha
    by_cases had : a.date = d
    · have hany : (fixed.any fun f => f.date == a.date) = false := by
        apply List.any_eq_false.mpr
        intro g hg
        simp only [beq_iff_eq]
        intro hgd
        apply h
        apply List.mem_map.mpr
        refine ⟨g, hg, ?_⟩
        show g.date = d
        omega
      rw [hany]
      simp
    · have hne : (a.date == d) = false := by simp [had]
      rw [hne]
      simp
  show rowsAt d (sortByDate _) = _
  rw [show rowsAt d (sortByDate (fixed ++ _)) =
        sortByDate (rowsAt d (fixed ++ _)) from filter_sortByDate _ _]
  unfold rowsAt at h0 h1 ⊢
  rw [List.filter_append]
  rw [show List.filter (fun r => r.date == d) fixed = [] from h0]
  rw [List.nil_append]
  rw [show List.filter (fun r => r.date == d)
        (List.filter (fun r => !fixed.any fun f => f.date == r.date) movable) =
      List.filter (fun r => r.date == d) movable from h1]
  exact sortByDate_rowsAt d movable

theorem mapWithIdx_map_feast (f : ℕ → SRow → SRow)
    (hf : ∀ k r, (f k r).feast = r.feast) :
    ∀ (k : ℕ) (l : List SRow), (mapWithIdx f k l).map (fun r => r.feast) =
      l.map (fun r => r.feast) := by
  intro k l
  induction l generalizing k with
  | nil => rfl
  | cons x xs ih => simp [mapWithIdx, hf, ih]

theorem mapWithIdx_map_toRow (f : ℕ → SRow → SRow)
    (hf : ∀ k r, (f k r).toRow = r.toRow) :
    ∀ (k : ℕ) (l : List SRow), (mapWithIdx f k l).map SRow.toRow = l.map SRow.toRow := by
  intro k l
  induction l generalizing k with
  | nil => rfl
  | cons x xs ih => simp [mapWithIdx, hf, ih]

theorem mapWithIdx_getElem? (f : ℕ → SRow → SRow) :
    ∀ (k i : ℕ) (l : List SRow), (mapWithIdx f k l)[i]? = Option.map (f (k + i)) l[i]? := by
  intro k i l
  induction l generalizing k i with
  | nil => simp [mapWithIdx]
  | cons x xs ih =>
    cases i with
    | zero => simp [mapWithIdx]
    | succ i =>
      simp only [mapWithIdx, List.getElem?_cons_succ]
      rw [ih (k + 1) i]
      have harith : k + 1 + i = k + (i + 1) := by omega
      rw [harith]

theorem setSeasonSlice_map_feast (a b c : String) (l : List SRow) :
    (setSeasonSlice a b c l).map (fun r => r.feast) = l.map (fun r => r.feast) := by
  unfold setSeasonSlice
  cases ha : l.findIdx? (fun r => r.feast == a) with
  | none => rfl
  | some i =>
    cases hb : l.findIdx? (fun r => r.feast == b) with
    | none => rfl
    | some j =>
      apply mapWithIdx_map_feast
      intro k r
      split <;> rfl

theorem setSeasonSlice_map_toRow (a b c : String) (l : List SRow) :
    (setSeasonSlice a b c l).map SRow.toRow = l.map SRow.toRow := by
  unfold setSeasonSlice
  cases ha : l.findIdx? (fun r => r.feast == a) with
  | none => rfl
  | some i =>
    cases hb : l.findIdx? (fun r => r.feast == b) with
    | none => rfl
    | some j =>
      apply mapWithIdx_map_toRow
      intro k r
      split <;> rfl

theorem addSeasons_map_toRow (rows : List Row) :
    (addSeasons rows).map SRow.toRow = rows := by
  unfold addSeasons
  rw [setSeasonSlice_map_toRow, setSeasonSlice_map_toRow, setSeasonSlice_map_toRow,
    setSeasonSlice_map_toRow, List.map_map]
  have : SRow.toRow ∘ toSRow = id := by
    funext r
    rfl
  rw [this, List.map_id]

theorem mem_toRow_of_mem_addSeasons {s : SRow} {rows : List Row} (h : s ∈ addSeasons rows) :
    s.toRow ∈ rows := by
  rw [← addSeasons_map_toRow rows]
  exact List.mem_map_of_mem SRow.toRow h

theorem mem_addSeasons_of_mem {r : Row} {rows : List Row} (h : r ∈ rows) :
    ∃ s ∈ addSeasons rows, s.toRow = r := by
  rw [← addSeasons_map_toRow rows] at h
  exact List.mem_map.mp h

theorem findIdx?_feast_congr (l l' : List SRow)
    (h : l.map (fun r => r.feast) = l'.map (fun r => r.feast)) (key : String) :
    l.findIdx? (fun r => r.feast == key) = l'.findIdx? (fun r => r.feast == key) := by
  have h1 : l.findIdx? (fun r => r.feast == key) =
      (l.map (fun r => r.feast)).findIdx? (fun s => s == key) := by
    rw [List.findIdx?_map]
    rfl
  have h2 : l'.findIdx? (fun r => r.feast == key) =
      (l'.map (fun r => r.feast)).findIdx? (fun s => s == key) := by
    rw [List.findIdx?_map]
    rfl
  rw [h1, h2, h]

theorem setSeasonSlice_getElem?_set (a b c : String) (l : List SRow) (i j k : ℕ)
    (ha : l.findIdx? (fun r => r.feast == a) = some i)
    (hb : l.findIdx? (fun r => r.feast == b) = some j)
    (hik : i ≤ k) (hkj : k ≤ j) :
    (setSeasonSlice a b c l)[k]? =
      Option.map (fun r => { r with season := c }) l[k]? := by
  unfold setSeasonSlice
  rw [ha, hb]
  rw [mapWithIdx_getElem?]
  cases l[k]? with
  | none => rfl
  | some r =>
    simp only [Option.map_some']
    rw [if_pos ⟨by omega, by omega⟩]

theorem setSeasonSlice_getElem?_before (a b c : String) (l : List SRow) (i k : ℕ)
    (ha : l.findIdx? (fun r => r.feast == a) = some i)
    (hk : k < i) :
    (setSeasonSlice a b c l)[k]? = l[k]? := by
  unfold setSeasonSlice
  rw [ha]
  cases hb : l.findIdx? (fun r => r.feast == b) with
  | none => rfl
  | some j =>
    rw [mapWithIdx_getElem?]
    cases l[k]? with
    | none => rfl
    | some r =>
      simp only [Option.map_some']
      rw [if_neg (by omega)]

theorem ne_of_data_head (s t : String) (h : s.data.head? ≠ t.data.head?) : s ≠ t := by
  intro he
  subst he
  exact h rfl

theorem mkKey_data_head (sea : String) (c : Char) (rest : List Char)
    (hs : sea.data = c :: rest) (i : ℕ) : (mkKey sea i).data.head? = some c := by
  unfold mkKey
  rw [String.data_append, hs]
  rfl

theorem lettersOf_ot_key : ∀ i < 100, lettersOf (mkKey "ot" i) = "ot" := by
  decide

theorem foldl_subst_cases (subs : List (String × String)) (s : String) :
    subs.foldl (fun t p => if t = p.1 then p.2 else t) s = s ∨
      ∃ p ∈ subs, subs.foldl (fun t p => if t = p.1 then p.2 else t) s = p.2 := by
  induction subs generalizing s with
  | nil => exact Or.inl rfl
  | cons q qs ih =>
    simp only [List.foldl_cons]
    by_cases hq : s = q.1
    · rcases ih q.2 with h | ⟨p, hp, h⟩
      · rw [if_pos hq, h]
        exact Or.inr ⟨q, List.mem_cons_self q qs, rfl⟩
      · rw [if_pos hq, h]
        exact Or.inr ⟨p, List.mem_cons_of_mem q hp, rfl⟩
    · rcases ih s with h | ⟨p, hp, h⟩
      · rw [if_neg hq, h]
        exact Or.inl rfl
      · rw [if_neg hq, h]
        exact Or.inr ⟨p, List.mem_cons_of_mem q hp, rfl⟩

theorem foldl_subst_of_ne (subs : List (String × String)) (s : String)
    (h : ∀ p ∈ subs, s ≠ p.1) :
    subs.foldl (fun t p => if t = p.1 then p.2 else t) s = s := by
  induction subs with
  | nil => rfl
  | cons q qs ih =>
    simp only [List.foldl_cons]
    rw [if_neg (h q (List.mem_cons_self q qs))]
    exact ih fun p hp => h p (List.mem_cons_of_mem q hp)

theorem adventRows_eq (christmas : ℤ) :
    adventRows christmas =
      [⟨prevSundayStep christmas - 21, "advent01", "advent/advent01.qmd"⟩,
       ⟨prevSundayStep christmas - 14, "advent02", "advent/advent02.qmd"⟩,
       ⟨prevSundayStep christmas - 7, "advent03", "advent/advent03.qmd"⟩,
       ⟨prevSundayStep christmas, "advent04", "advent/advent04.qmd"⟩] := by
  unfold adventRows process_output
  rw [previous_sundays_labeled_eq christmas 4 4 "advent" (by omega)]
  simp [List.range_succ, mkKey, zfill2, lettersOf]
  repeat' apply And.intro
  all_goals first
  | decide
  | omega

theorem lentRowsRaw_eq (E : ℤ) (hE : weekday E = 6) :
    lentRowsRaw E =
      [⟨E - 42, "lent01", "lent/lent01.qmd"⟩,
       ⟨E - 35, "lent02", "lent/lent02.qmd"⟩,
       ⟨E - 28, "lent03", "lent/lent03.qmd"⟩,
       ⟨E - 21, "lent04", "lent/lent04.qmd"⟩,
       ⟨E - 14, "lent05", "lent/lent05.qmd"⟩,
       ⟨E - 7, "lent06", "lent/lent06.qmd"⟩] := by
  unfold lentRowsRaw process_output
  rw [previous_sundays_labeled_eq E 6 6 "lent" (by omega), prevSundayStep_of_sunday E hE]
  simp [List.range_succ, mkKey, zfill2, lettersOf]
  repeat' apply And.intro
  all_goals first
  | decide
  | omega

theorem lentRows_eq (E : ℤ) (hE : weekday E = 6) :
    lentRows E =
      [⟨E - 42, "lent01", "lent/lent01.qmd"⟩,
       ⟨E - 35, "lent02", "lent/lent02.qmd"⟩,
       ⟨E - 28, "lent03", "lent/lent03.qmd"⟩,
       ⟨E - 21, "lent04", "lent/lent04.qmd"⟩,
       ⟨E - 14, "lent05", "lent/lent05.qmd"⟩,
       ⟨E - 7, "palm-sunday", "holy-week/palm-sunday.qmd"⟩] := by
  unfold lentRows replaceVals
  rw [lentRowsRaw_eq E hE]
  rfl

theorem triduumRows_eq (E : ℤ) (hE : weekday E = 6) :
    triduumRows E =
      [⟨E - 46, "ash-wednesday", "lent/ash-wednesday.qmd"⟩,
       ⟨E - 3, "holy-thursday", "holy-week/holy-thursday.qmd"⟩,
       ⟨E - 2, "good-friday", "holy-week/good-friday.qmd"⟩,
       ⟨E - 1, "easter-vigil", "holy-week/easter-vigil.qmd"⟩] := by
  unfold triduumRows lookupDate
  rw [lentRows_eq E hE]
  simp
  repeat' apply And.intro
  all_goals omega

theorem easterRowsBase_eq (E : ℤ) (hE : weekday E = 6) :
    easterRowsBase E =
      [⟨E + 7, "easter02", "easter/easter02.qmd"⟩,
       ⟨E + 14, "easter03", "easter/easter03.qmd"⟩,
       ⟨E + 21, "easter04", "easter/easter04.qmd"⟩,
       ⟨E + 28, "easter05", "easter/easter05.qmd"⟩,
       ⟨E + 35, "easter06", "easter/easter06.qmd"⟩,
       ⟨E + 42, "easter07", "easter/easter07.qmd"⟩,
       ⟨E + 49, "easter08", "easter/easter08.qmd"⟩,
       ⟨E + 56, "easter09", "easter/easter09.qmd"⟩,
       ⟨E + 63, "easter10", "easter/easter10.qmd"⟩,
       ⟨E, "easter", "easter/easter.qmd"⟩] := by
  unfold easterRowsBase process_output next_sundays_labeled
  rw [next_sundays_sunday E hE, List.zip_map']
  simp [List.range_succ, mkKey, zfill2, lettersOf]
  repeat' apply And.intro
  all_goals first
  | decide
  | omega

theorem easterRowsRenamed_eq (E : ℤ) (hE : weekday E = 6) :
    easterRowsRenamed E =
      [⟨E + 7, "easter02", "easter/easter02.qmd"⟩,
       ⟨E + 14, "easter03", "easter/easter03.qmd"⟩,
       ⟨E + 21, "easter04", "easter/easter04.qmd"⟩,
       ⟨E + 28, "easter05", "easter/easter05.qmd"⟩,
       ⟨E + 35, "easter06", "easter/easter06.qmd"⟩,
       ⟨E + 42, "easter07", "easter/easter07.qmd"⟩,
       ⟨E + 49, "pentecost", "easter/pentecost.qmd"⟩,
       ⟨E + 56, "holy-trinity", "feasts/holy-trinity.qmd"⟩,
       ⟨E + 63, "corpus-christi", "feasts/corpus-christi.qmd"⟩,
       ⟨E, "easter", "easter/easter.qmd"⟩] := by
  unfold easterRowsRenamed replaceVals
  rw [easterRowsBase_eq E hE]
  rfl

theorem pentecostDate_eq (E : ℤ) (hE : weekday E = 6) : pentecostDate E = E + 49 := by
  unfold pentecostDate lookupDate
  rw [easterRowsRenamed_eq E hE]
  rfl

theorem easterRows_eq_transfer (E : ℤ) (hE : weekday E = 6) :
    easterRows E false =
      [⟨E + 7, "easter02", "easter/easter02.qmd"⟩,
       ⟨E + 14, "easter03", "easter/easter03.qmd"⟩,
       ⟨E + 21, "easter04", "easter/easter04.qmd"⟩,
       ⟨E + 28, "easter05", "easter/easter05.qmd"⟩,
       ⟨E + 35, "easter06", "easter/easter06.qmd"⟩,
       ⟨E + 42, "ascension", "easter/ascension.qmd"⟩,
       ⟨E + 49, "pentecost", "easter/pentecost.qmd"⟩,
       ⟨E + 56, "holy-trinity", "feasts/holy-trinity.qmd"⟩,
       ⟨E + 63, "corpus-christi", "feasts/corpus-christi.qmd"⟩,
       ⟨E, "easter", "easter/easter.qmd"⟩,
       ⟨E + 48, "pentecost-vigil", "easter/pentecost-vigil.qmd"⟩,
       ⟨E + 48, "pentecost-vigil", "easter/pentecost-vigil-extended.qmd"⟩] := by
  unfold easterRows replaceVals
  rw [pentecostDate_eq E hE, easterRowsRenamed_eq E hE]
  norm_num
  repeat' apply And.intro
  all_goals first
  | decide
  | omega

theorem easterRows_eq_thursday (E : ℤ) (hE : weekday E = 6) :
    easterRows E true =
      [⟨E + 7, "easter02", "easter/easter02.qmd"⟩,
       ⟨E + 14, "easter03", "easter/easter03.qmd"⟩,
       ⟨E + 21, "easter04", "easter/easter04.qmd"⟩,
       ⟨E + 28, "easter05", "easter/easter05.qmd"⟩,
       ⟨E + 35, "easter06", "easter/easter06.qmd"⟩,
       ⟨E + 42, "easter07", "easter/easter07.qmd"⟩,
       ⟨E + 49, "pentecost", "easter/pentecost.qmd"⟩,
       ⟨E + 56, "holy-trinity", "feasts/holy-trinity.qmd"⟩,
       ⟨E + 63, "corpus-christi", "feasts/corpus-christi.qmd"⟩,
       ⟨E, "easter", "easter/easter.qmd"⟩,
       ⟨E + 48, "pentecost-vigil", "easter/pentecost-vigil.qmd"⟩,
       ⟨E + 48, "pentecost-vigil", "easter/pentecost-vigil-extended.qmd"⟩,
       ⟨E + 39, "ascension", "easter/ascension.qmd"⟩] := by
  unfold easterRows
  rw [pentecostDate_eq E hE, easterRowsRenamed_eq E hE]
  norm_num
  repeat' apply And.intro
  all_goals first
  | decide
  | omega

theorem christmasRows_eq_sunday (x : ℤ) (hx : weekday x = 6) :
    christmasRows x =
      [⟨x + 7, "epiphany", "christmas/epiphany.qmd"⟩,
       ⟨x + 14, "baptism", "christmas/baptism.qmd"⟩,
       ⟨x, "christmas-dawn", "christmas/christmas-dawn.qmd"⟩,
       ⟨x, "christmas-day", "christmas/christmas-day.qmd"⟩,
       ⟨x - 1, "christmas-eve", "christmas/christmas-eve.qmd"⟩,
       ⟨x - 1, "christmas-midnight", "christmas/christmas-midnight.qmd"⟩] := by
  unfold christmasRows process_output
  rw [if_pos hx, next_sundays_sunday x hx]
  simp [List.range_succ]
  repeat' apply And.intro
  all_goals first
  | decide
  | omega

theorem christmasRows_eq_weekday (x : ℤ) (hx : ¬(weekday x = 6)) :
    christmasRows x =
      [⟨x + (6 - weekday x), "holy-family", "christmas/holy-family.qmd"⟩,
       ⟨x + (6 - weekday x) + 7, "epiphany", "christmas/epiphany.qmd"⟩,
       ⟨x + (6 - weekday x) + 14, "baptism", "christmas/baptism.qmd"⟩,
       ⟨x, "christmas-dawn", "christmas/christmas-dawn.qmd"⟩,
       ⟨x, "christmas-day", "christmas/christmas-day.qmd"⟩,
       ⟨x - 1, "christmas-eve", "christmas/christmas-eve.qmd"⟩,
       ⟨x - 1, "christmas-midnight", "christmas/christmas-midnight.qmd"⟩] := by
  have h0 : ¬(6 - weekday x = 0) := by
    unfold weekday at hx ⊢
    omega
  unfold christmasRows process_output next_sundays
  rw [if_neg hx, if_neg h0]
  simp [List.range_succ]
  repeat' apply And.intro
  all_goals first
  | decide
  | omega

theorem mem_process_output {r : Row} {weeks : List (ℤ × String)} {dir : Option String}
    (h : r ∈ process_output weeks dir) : ∃ w ∈ weeks, r.date = w.1 ∧ r.feast = w.2 := by
  unfold process_output at h
  rcases List.mem_map.mp h with ⟨w, hw, he⟩
  exact ⟨w, hw, by rw [← he], by rw [← he]⟩

theorem otWinterRows_feast {christmas E : ℤ} {b : Bool} {r : Row}
    (h : r ∈ otWinterRows christmas E b) : ∃ i, r.feast = mkKey "ot" i := by
  unfold otWinterRows next_sundays_labeled at h
  rcases mem_process_output h with ⟨w, hw, _, hf⟩
  rcases List.mem_zip hw with ⟨_, h2⟩
  rcases List.mem_map.mp h2 with ⟨i, _, hi⟩
  exact ⟨2 + i, by rw [hf, ← hi]⟩

theorem otSummerRows_feast {y : ℕ} {christmas E : ℤ} {b : Bool} {r : Row}
    (h : r ∈ otSummerRows y christmas E b) : ∃ i, r.feast = mkKey "ot" i := by
  unfold otSummerRows previous_sundays_labeled at h
  rcases mem_process_output h with ⟨w, hw, _, hf⟩
  have hw2 : w ∈ ((iterList prevSundayStep (christTheKing y)
      ((numSummerWeeks y christmas E b - 1).toNat + 1)).zip
      (((List.range' 1 (33 + 1)).reverse).map (mkKey "ot"))) :=
    List.mem_reverse.mp (List.dropLast_subset _ hw)
  rcases List.mem_zip hw2 with ⟨_, h2⟩
  rcases List.mem_map.mp h2 with ⟨i, _, hi⟩
  exact ⟨i, by rw [hf, ← hi]⟩

theorem othersRows_feast {y : ℕ} {E : ℤ} {r : Row} (h : r ∈ othersRows y E) :
    r.feast = "sacred-heart" ∨ r.feast = "christ-the-king" ∨ r.feast = "thanksgiving" := by
  simp only [othersRows] at h
  split at h <;> simp only [List.mem_cons, List.mem_singleton] at h <;>
    rcases h with rfl | rfl | rfl | h <;> simp_all

theorem feastsRegistry_feast {y : ℕ} {r : Row} (h : r ∈ feastsRegistry y) :
    r.feast ∈ ["presentation", "transfiguration", "holy-cross", "all-souls", "john-lateran",
      "immaculate-conception", "mary-mother-of-god", "stjoseph", "annunciation",
      "nativity-john-baptist-vigil", "nativity-john-baptist", "peter-paul-vigil", "peter-paul",
      "assumption-vigil", "assumption", "all-saints"] := by
  unfold feastsRegistry at h
  simp only [List.mem_cons, List.mem_singleton] at h
  rcases h with rfl | rfl | rfl | rfl | rfl | rfl | rfl | rfl | rfl | rfl | rfl | rfl | rfl |
    rfl | rfl | rfl | h <;> simp_all
  all_goals simp

theorem registry_gap (y : ℕ) (hy : 2 ≤ y) :
    ∀ r ∈ feastsRegistry y, r.date ≤ dateToOrdinal y 3 25 ∨ dateToOrdinal y 6 23 ≤ r.date := by
  intro r hr
  have hl := leapDay_bounds y
  have hl1 := leapDay_bounds (y - 1)
  have hls := leapsBefore_succ y hy
  simp only [feastsRegistry, List.mem_cons, List.not_mem_nil, or_false] at hr
  rcases hr with rfl | rfl | rfl | rfl | rfl | rfl | rfl | rfl | rfl | rfl | rfl | rfl | rfl |
    rfl | rfl | rfl
  all_goals first
  | (left; simp only [dateToOrdinal, daysBeforeMonth]; push_cast; omega)
  | (right; simp only [dateToOrdinal, daysBeforeMonth]; push_cast; omega)

theorem easter_window (y : ℕ) (E : ℤ) (h : ValidEaster y E) (k : ℤ) (hk1 : 4 ≤ k)
    (hk2 : k ≤ 54) :
    dateToOrdinal y 3 25 < E + k ∧ E + k < dateToOrdinal y 6 23 := by
  obtain ⟨hy, hw, h1, h2⟩ := h
  have hl := leapDay_bounds y
  simp only [dateToOrdinal, daysBeforeMonth] at h1 h2 ⊢
  push_cast at h1 h2 ⊢
  omega

theorem fixed_dates_ne (y : ℕ) (hy : 2 ≤ y) (d : ℤ)
    (hd1 : dateToOrdinal y 3 25 < d) (hd2 : d < dateToOrdinal y 6 23) :
    ∀ r ∈ fixedAfterDrop y, r.date ≠ d := by
  intro r hr
  have := registry_gap y hy r (List.mem_of_mem_filter hr)
  omega

theorem christTheKing_eq (y : ℕ) :
    christTheKing y = prevSundayStep (dateToOrdinal y 12 25) - 28 := by
  unfold christTheKing
  rw [previous_sundays_eq]
  simp [List.range_succ]

theorem christTheKing_weekday (y : ℕ) : weekday (christTheKing y) = 6 := by
  rw [christTheKing_eq]
  have := prevSundayStep_weekday (dateToOrdinal y 12 25)
  unfold weekday at this ⊢
  omega

theorem corpus_lookup (x E : ℤ) (b : Bool) (hE : weekday E = 6) :
    lookupDate (movablePreOT x E b) "corpus-christi" = E + 63 := by
  unfold movablePreOT lookupDate
  rw [adventRows_eq, lentRows_eq E hE, triduumRows_eq E hE]
  by_cases hx : weekday x = 6
  · rw [christmasRows_eq_sunday x hx]
    cases b
    · rw [easterRows_eq_transfer E hE]
      rfl
    · rw [easterRows_eq_thursday E hE]
      rfl
  · rw [christmasRows_eq_weekday x hx]
    cases b
    · rw [easterRows_eq_transfer E hE]
      rfl
    · rw [easterRows_eq_thursday E hE]
      rfl

theorem baptism_lookup_sunday (x E : ℤ) (b : Bool) (hx : weekday x = 6) (hE : weekday E = 6) :
    lookupDate (movablePreOT x E b) "baptism" = x + 14 := by
  unfold movablePreOT lookupDate
  rw [adventRows_eq, lentRows_eq E hE, triduumRows_eq E hE, christmasRows_eq_sunday x hx]
  cases b
  · rw [easterRows_eq_transfer E hE]
    rfl
  · rw [easterRows_eq_thursday E hE]
    rfl

theorem numSummerWeeks_bounds (y : ℕ) (x E : ℤ) (b : Bool) (h : ValidEaster y E) :
    20 ≤ numSummerWeeks y x E b ∧ numSummerWeeks y x E b ≤ 26 := by
  obtain ⟨hy, hw, h1, h2⟩ := h
  unfold numSummerWeeks
  rw [corpus_lookup x E b hw, christTheKing_eq]
  have hl := leapDay_bounds y
  have hps := prevSundayStep_lt (dateToOrdinal y 12 25)
  have hpw := prevSundayStep_weekday (dateToOrdinal y 12 25)
  rw [Int.fdiv_eq_ediv _ (by omega)]
  simp only [dateToOrdinal, daysBeforeMonth] at h1 h2 hps ⊢
  push_cast at h1 h2 hps ⊢
  omega

theorem chain'_seven_map_range (g : ℕ → ℤ) (n : ℕ) (hg : ∀ i, i + 1 < n → g (i + 1) = g i + 7) :
    List.Chain' (fun a b => b = a + 7) ((List.range n).map g) := by
  rw [List.chain'_map]
  cases n with
  | zero => simp
  | succ n =>
    rw [List.chain'_range_succ]
    intro m hm
    exact hg m (by omega)

theorem weekday_sub_seven_mul (x : ℤ) (k : ℕ) : weekday (x - 7 * (k : ℤ)) = weekday x := by
  unfold weekday
  omega

/-- Claim C9: both Sunday walks return exactly `n` Sundays strictly on the
proper side of the anchor (the anchor itself excluded even when it is a
Sunday), in ascending order with consecutive entries exactly 7 days apart. -/
theorem spec_C9_sunday_walks (d : ℤ) (n : ℕ) (hn : 1 ≤ n) :
    (previous_sundays d n).length = n ∧
    (∀ x ∈ previous_sundays d n, weekday x = 6 ∧ x < d) ∧
    List.Chain' (fun a b => b = a + 7) (previous_sundays d n) ∧
    (next_sundays d n).length = n ∧
    (∀ x ∈ next_sundays d n, weekday x = 6 ∧ d < x) ∧
    List.Chain' (fun a b => b = a + 7) (next_sundays d n) := by
  have hps := prevSundayStep_lt d
  have hpw := prevSundayStep_weekday d
  refine ⟨?_, ?_, ?_, ?_, ?_, ?_⟩
  · rw [previous_sundays_eq]
    simp
  · rw [previous_sundays_eq]
    intro x hx
    rcases List.mem_map.mp hx with ⟨i, hi, rfl⟩
    constructor
    · rw [weekday_sub_seven_mul, hpw]
    · have : (0 : ℤ) ≤ 7 * ((n - 1 - i : ℕ) : ℤ) := by positivity
      omega
  · rw [previous_sundays_eq]
    apply chain'_seven_map_range
    intro i hi
    omega
  · unfold next_sundays
    simp
  · unfold next_sundays
    intro x hx
    rcases List.mem_map.mp hx with ⟨i, hi, rfl⟩
    have hic : (0 : ℤ) ≤ 7 * (i : ℤ) := by positivity
    by_cases h6 : 6 - weekday d = 0
    · rw [if_pos h6]
      unfold weekday at h6 ⊢
      constructor
      · omega
      · omega
    · rw [if_neg h6]
      unfold weekday at h6 ⊢
      constructor
      · omega
      · omega
  · unfold next_sundays
    apply chain'_seven_map_range
    intro i hi
    push_cast
    ring

/-- Witness for C9 at the concrete anchor 0 (a Sunday is at ordinal -1) and
count 3. -/
theorem spec_C9_sunday_walks_witness :
    1 ≤ 3 ∧
      ((previous_sundays 0 3).length = 3 ∧
      (∀ x ∈ previous_sundays 0 3, weekday x = 6 ∧ x < 0) ∧
      List.Chain' (fun a b => b = a + 7) (previous_sundays 0 3) ∧
      (next_sundays 0 3).length = 3 ∧
      (∀ x ∈ next_sundays 0 3, weekday x = 6 ∧ 0 < x) ∧
      List.Chain' (fun a b => b = a + 7) (next_sundays 0 3)) :=
  ⟨by norm_num, spec_C9_sunday_walks 0 3 (by norm_num)⟩

theorem otSummerCount_bounds (y : ℕ) (E : ℤ) (b : Bool) (h : ValidEaster y E) :
    19 ≤ otSummerCount y E b ∧ otSummerCount y E b ≤ 25 := by
  have := numSummerWeeks_bounds y (dateToOrdinal (y - 1) 12 25) E b h
  unfold otSummerCount
  omega

/-- Claim C8: the summer Ordinary Time segment is the backward walk of
`num_summer_weeks - 1` Sundays from Christ the King; in chronological order
its `i`-th row is the Sunday `7*(count - i)` days before Christ the King
carrying week number `33 - (count - 1 - i)`, so the chronologically last
numbered week is always exactly `ot33`, the Sunday immediately before
Christ the King (itself a Sunday). -/
theorem spec_C8_summer_ot (y : ℕ) (E : ℤ) (b : Bool) (h : ValidEaster y E) :
    1 ≤ otSummerCount y E b ∧
    weekday (christTheKing y) = 6 ∧
    otSummerRows y (dateToOrdinal (y - 1) 12 25) E b =
      (List.range (otSummerCount y E b)).map (fun i : ℕ =>
        ⟨christTheKing y - 7 * ((otSummerCount y E b - i : ℕ) : ℤ),
         mkKey "ot" (33 - (otSummerCount y E b - 1 - i)),
         "ot/" ++ mkKey "ot" (33 - (otSummerCount y E b - 1 - i)) ++ ".qmd"⟩) ∧
    (otSummerRows y (dateToOrdinal (y - 1) 12 25) E b).getLast? =
      some ⟨christTheKing y - 7, "ot33", "ot/ot33.qmd"⟩ := by
  have hb := otSummerCount_bounds y E b h
  have hctk := christTheKing_weekday y
  have hstep : prevSundayStep (christTheKing y) = christTheKing y - 7 :=
    prevSundayStep_of_sunday _ hctk
  obtain ⟨m, hm⟩ : ∃ m, otSummerCount y E b = m + 1 := ⟨otSummerCount y E b - 1, by omega⟩
  have hn1 : 1 ≤ otSummerCount y E b := by omega
  have hn33 : otSummerCount y E b ≤ 33 := by omega
  have hrows : otSummerRows y (dateToOrdinal (y - 1) 12 25) E b =
      (List.range (otSummerCount y E b)).map (fun i : ℕ =>
        ⟨christTheKing y - 7 * ((otSummerCount y E b - i : ℕ) : ℤ),
         mkKey "ot" (33 - (otSummerCount y E b - 1 - i)),
         "ot/" ++ mkKey "ot" (33 - (otSummerCount y E b - 1 - i)) ++ ".qmd"⟩) := by
    unfold otSummerRows process_output
    rw [show (numSummerWeeks y (dateToOrdinal (y - 1) 12 25) E b - 1).toNat =
        otSummerCount y E b from rfl]
    rw [previous_sundays_labeled_eq _ (otSummerCount y E b) 33 "ot" hn33, hstep]
    have hd : (((List.range (otSummerCount y E b)).map (fun i : ℕ =>
        (christTheKing y - 7 - 7 * ((otSummerCount y E b - 1 - i : ℕ) : ℤ),
          mkKey "ot" (33 - (otSummerCount y E b - 1 - i))))).headD (0, "")).2 =
        mkKey "ot" (34 - otSummerCount y E b) := by
      rw [hm, List.range_succ_eq_map, List.map_cons]
      simp only [List.headD_cons]
      congr 1
      omega
    rw [List.map_map, hd, lettersOf_ot_key (34 - otSummerCount y E b) (by omega)]
    refine List.map_congr_left fun i hi => ?_
    have hi2 : i < otSummerCount y E b := List.mem_range.mp hi
    simp only [Function.comp_apply, Row.mk.injEq]
    refine ⟨by omega, trivial, ?_⟩
    have hslash : ("ot" : String) ++ "/" = "ot/" := by decide
    rw [hslash]
  refine ⟨hn1, hctk, hrows, ?_⟩
  rw [hrows, List.getLast?_eq_getElem?, List.length_map, List.length_range,
    List.getElem?_map, List.getElem?_range (show otSummerCount y E b - 1 <
      otSummerCount y E b by omega)]
  simp only [Option.map_some', Option.some.injEq, Row.mk.injEq]
  have h1 : otSummerCount y E b - (otSummerCount y E b - 1) = 1 := by omega
  have h2 : otSummerCount y E b - 1 - (otSummerCount y E b - 1) = 0 := by omega
  rw [h1, h2]
  refine ⟨by norm_num, by decide, by decide⟩

/-- Witness for C8 at Easter 2026-04-05. -/
theorem spec_C8_summer_ot_witness :
    ValidEaster 2026 (dateToOrdinal 2026 4 5) ∧
      (otSummerRows 2026 (dateToOrdinal 2025 12 25) (dateToOrdinal 2026 4 5) false).getLast? =
        some ⟨christTheKing 2026 - 7, "ot33", "ot/ot33.qmd"⟩ :=
  ⟨⟨by norm_num, by decide, by decide, by decide⟩,
    (spec_C8_summer_ot 2026 (dateToOrdinal 2026 4 5) false
      ⟨by norm_num, by decide, by decide, by decide⟩).2.2.2⟩

/-- Claim C6: merging the fixed registry into an already-merged table changes
nothing, for every input. -/
theorem spec_C6_merge_idempotent (y : ℕ) (E : ℤ) (b : Bool) :
    mergeFeasts (fixedAfterDrop y) (mergeFeasts (fixedAfterDrop y) (movableTable y E b)) =
      mergeFeasts (fixedAfterDrop y) (movableTable y E b) :=
  mergeFeasts_idem _ _

/-- Claim C3 is a code bug: in November 2023 (five Thursdays) the script's
`monthcalendar`-column maximum gives the *last* Thursday, Nov 30, while the
fourth Thursday (Thanksgiving) is Nov 23; the pipeline emits the Nov 30 row. -/
theorem spec_C3_thanksgiving_code_bug :
    thanksgivingDay 2023 = 30 ∧
    fourthThursdayNovember 2023 = 23 ∧
    weekday (dateToOrdinal 2023 11 30) = 3 ∧
    (othersRows 2023 (dateToOrdinal 2023 4 9)).any
      (fun r => r.feast == "thanksgiving" && r.date == dateToOrdinal 2023 11 30) = true := by
  refine ⟨by decide, by decide, by decide, ?_⟩
  decide

theorem mem_movableTable_cases {y : ℕ} {E : ℤ} {b : Bool} {r : Row}
    (h : r ∈ movableTable y E b) :
    r ∈ adventRows (dateToOrdinal (y - 1) 12 25) ∨
    r ∈ christmasRows (dateToOrdinal (y - 1) 12 25) ∨
    r ∈ lentRows E ∨ r ∈ triduumRows E ∨ r ∈ easterRows E b ∨
    r ∈ otWinterRows (dateToOrdinal (y - 1) 12 25) E b ∨
    r ∈ otSummerRows y (dateToOrdinal (y - 1) 12 25) E b ∨
    r ∈ othersRows y E := by
  simp only [movableTable, movablePreOT, List.mem_append] at h
  rcases h with (((((((h | h) | h) | h) | h) | h) | h) | h)
  exacts [.inl h, .inr (.inl h), .inr (.inr (.inl h)), .inr (.inr (.inr (.inl h))),
    .inr (.inr (.inr (.inr (.inl h)))), .inr (.inr (.inr (.inr (.inr (.inl h))))),
    .inr (.inr (.inr (.inr (.inr (.inr (.inl h)))))),
    .inr (.inr (.inr (.inr (.inr (.inr (.inr h))))))]

theorem adventRows_feast {x : ℤ} {r : Row} (h : r ∈ adventRows x) :
    r.feast ∈ ["advent01", "advent02", "advent03", "advent04"] := by
  rw [adventRows_eq] at h
  simp only [List.mem_cons, List.not_mem_nil, or_false] at h
  rcases h with rfl | rfl | rfl | rfl <;> simp

theorem christmasRows_feast {x : ℤ} {r : Row} (h : r ∈ christmasRows x) :
    r.feast ∈ ["holy-family", "epiphany", "baptism", "christmas-dawn", "christmas-day",
      "christmas-eve", "christmas-midnight"] := by
  by_cases hx : weekday x = 6
  · rw [christmasRows_eq_sunday x hx] at h
    simp only [List.mem_cons, List.not_mem_nil, or_false] at h
    rcases h with rfl | rfl | rfl | rfl | rfl | rfl <;> simp
  · rw [christmasRows_eq_weekday x hx] at h
    simp only [List.mem_cons, List.not_mem_nil, or_false] at h
    rcases h with rfl | rfl | rfl | rfl | rfl | rfl | rfl <;> simp

theorem christmasRows_sunday_feast {x : ℤ} {r : Row} (hx : weekday x = 6)
    (h : r ∈ christmasRows x) :
    r.feast ∈ ["epiphany", "baptism", "christmas-dawn", "christmas-day",
      "christmas-eve", "christmas-midnight"] := by
  rw [christmasRows_eq_sunday x hx] at h
  simp only [List.mem_cons, List.not_mem_nil, or_false] at h
  rcases h with rfl | rfl | rfl | rfl | rfl | rfl <;> simp

theorem lentRows_feast {E : ℤ} {r : Row} (hE : weekday E = 6) (h : r ∈ lentRows E) :
    r.feast ∈ ["lent01", "lent02", "lent03", "lent04", "lent05", "palm-sunday"] := by
  rw [lentRows_eq E hE] at h
  simp only [List.mem_cons, List.not_mem_nil, or_false] at h
  rcases h with rfl | rfl | rfl | rfl | rfl | rfl <;> simp

theorem triduumRows_feast {E : ℤ} {r : Row} (hE : weekday E = 6) (h : r ∈ triduumRows E) :
    r.feast ∈ ["ash-wednesday", "holy-thursday", "good-friday", "easter-vigil"] := by
  rw [triduumRows_eq E hE] at h
  simp only [List.mem_cons, List.not_mem_nil, or_false] at h
  rcases h with rfl | rfl | rfl | rfl <;> simp

theorem easterRows_transfer_feast {E : ℤ} {r : Row} (hE : weekday E = 6)
    (h : r ∈ easterRows E false) :
    r.feast ∈ ["easter02", "easter03", "easter04", "easter05", "easter06", "ascension",
      "pentecost", "holy-trinity", "corpus-christi", "easter", "pentecost-vigil"] := by
  rw [easterRows_eq_transfer E hE] at h
  simp only [List.mem_cons, List.not_mem_nil, or_false] at h
  rcases h with rfl | rfl | rfl | rfl | rfl | rfl | rfl | rfl | rfl | rfl | rfl | rfl <;> simp

theorem easterRows_thursday_feast {E : ℤ} {r : Row} (hE : weekday E = 6)
    (h : r ∈ easterRows E true) :
    r.feast ∈ ["easter02", "easter03", "easter04", "easter05", "easter06", "easter07",
      "pentecost", "holy-trinity", "corpus-christi", "easter", "pentecost-vigil",
      "ascension"] := by
  rw [easterRows_eq_thursday E hE] at h
  simp only [List.mem_cons, List.not_mem_nil, or_false] at h
  rcases h with rfl | rfl | rfl | rfl | rfl | rfl | rfl | rfl | rfl | rfl | rfl | rfl | rfl
  all_goals simp

theorem finalTable?_some {y : ℕ} {E : ℤ} {b : Bool} {t : List SRow}
    (h : finalTable? y E b = some t) : t = finalTable y E b := by
  unfold finalTable? at h
  by_cases hc : seasonSlicesApply (mergedTable y E b) = true
  · rw [if_pos hc] at h
    exact (Option.some.inj h).symm
  · rw [if_neg hc] at h
    exact Option.noConfusion h

theorem pentecost_vigil_rows_mem (y : ℕ) (E : ℤ) (b : Bool) (h : ValidEaster y E) :
    (⟨E + 48, "pentecost-vigil", "easter/pentecost-vigil.qmd"⟩ : Row) ∈
      (finalTable y E b).map SRow.toRow ∧
    (⟨E + 48, "pentecost-vigil", "easter/pentecost-vigil-extended.qmd"⟩ : Row) ∈
      (finalTable y E b).map SRow.toRow := by
  obtain ⟨hy, hw, h1, h2⟩ := h
  have hwin := easter_window y E ⟨hy, hw, h1, h2⟩ 48 (by norm_num) (by norm_num)
  have hfx := fixed_dates_ne y hy (E + 48) hwin.1 hwin.2
  have hmem : ∀ fn : String,
      (⟨E + 48, "pentecost-vigil", fn⟩ : Row) ∈ easterRows E b →
      (⟨E + 48, "pentecost-vigil", fn⟩ : Row) ∈ (finalTable y E b).map SRow.toRow := by
    intro fn hin
    unfold finalTable
    rw [addSeasons_map_toRow]
    apply mergeFeasts_mem_movable
    · intro g hg
      exact hfx g hg
    · show _ ∈ movablePreOT (dateToOrdinal (y - 1) 12 25) E b ++
        otWinterRows (dateToOrdinal (y - 1) 12 25) E b ++
        otSummerRows y (dateToOrdinal (y - 1) 12 25) E b ++ othersRows y E
      refine List.mem_append_left _ (List.mem_append_left _ (List.mem_append_left _ ?_))
      show _ ∈ adventRows (dateToOrdinal (y - 1) 12 25) ++
        christmasRows (dateToOrdinal (y - 1) 12 25) ++ lentRows E ++ triduumRows E ++
        easterRows E b
      exact List.mem_append_right _ hin
  constructor
  · apply hmem
    cases b
    · rw [easterRows_eq_transfer E hw]
      simp
    · rw [easterRows_eq_thursday E hw]
      simp
  · apply hmem
    cases b
    · rw [easterRows_eq_transfer E hw]
      simp
    · rw [easterRows_eq_thursday E hw]
      simp

/-- Counterexample to claim C10 (Easter 1989-03-26, a valid Easter date):
the Annunciation (March 25) supersedes the `easter-vigil` row in the merge,
so the `.loc['easter-vigil':'pentecost']` season slice has no start bound,
the script aborts with `KeyError`, and no final table is produced — "both
rows appear in every final table" fails. -/
theorem spec_C10_counterexample :
    ValidEaster 1989 (dateToOrdinal 1989 3 26) ∧
    (mergedTable 1989 (dateToOrdinal 1989 3 26) false).any
      (fun r => r.feast == "annunciation" && r.date == dateToOrdinal 1989 3 25) = true ∧
    (mergedTable 1989 (dateToOrdinal 1989 3 26) false).all
      (fun r => r.feast != "easter-vigil") = true ∧
    finalTable? 1989 (dateToOrdinal 1989 3 26) false = none := by
  refine ⟨⟨by norm_num, by decide, by decide, by decide⟩, ?_, ?_, ?_⟩
  · decide
  · decide
  · rfl

/-- Claim C10 as amended: the two Pentecost-vigil rows are dated one day
before Pentecost (Easter + 49, always a Sunday), that date is always a
Saturday, the Sunday-vigil suppression predicate is false on them, and both
rows appear in every final table the script actually produces — for Easter
March 26/27 the season-assignment slice raises `KeyError` and no table at
all is produced. -/
theorem spec_C10_amended (y : ℕ) (E : ℤ) (b : Bool) (h : ValidEaster y E)
    (t : List SRow) (ht : finalTable? y E b = some t) :
    pentecostDate E = E + 49 ∧
    weekday (E + 49) = 6 ∧
    weekday (E + 48) = 5 ∧
    vigilOnSunday ⟨E + 48, "pentecost-vigil", "easter/pentecost-vigil.qmd"⟩ = false ∧
    vigilOnSunday ⟨E + 48, "pentecost-vigil", "easter/pentecost-vigil-extended.qmd"⟩ = false ∧
    (⟨E + 48, "pentecost-vigil", "easter/pentecost-vigil.qmd"⟩ : Row) ∈ t.map SRow.toRow ∧
    (⟨E + 48, "pentecost-vigil", "easter/pentecost-vigil-extended.qmd"⟩ : Row) ∈
      t.map SRow.toRow := by
  rw [finalTable?_some ht]
  have hw := h.2.1
  have h49 : weekday (E + 49) = 6 := by
    unfold weekday at hw ⊢
    omega
  have h48 : weekday (E + 48) = 5 := by
    unfold weekday at hw ⊢
    omega
  have hv : ∀ fn : String, vigilOnSunday (⟨E + 48, "pentecost-vigil", fn⟩ : Row) = false := by
    intro fn
    unfold vigilOnSunday
    simp only [h48]
    simp
  obtain ⟨hm1, hm2⟩ := pentecost_vigil_rows_mem y E b h
  exact ⟨pentecostDate_eq E hw, h49, h48, hv _, hv _, hm1, hm2⟩

/-- Witness for the amended C10 at Easter 2026-04-05, a run the script
completes. -/
theorem spec_C10_amended_witness :
    (ValidEaster 2026 (dateToOrdinal 2026 4 5) ∧
      finalTable? 2026 (dateToOrdinal 2026 4 5) false =
        some (finalTable 2026 (dateToOrdinal 2026 4 5) false)) ∧
      weekday (dateToOrdinal 2026 4 5 + 48) = 5 :=
  ⟨⟨⟨by norm_num, by decide, by decide, by decide⟩, by rfl⟩,
    (spec_C10_amended 2026 (dateToOrdinal 2026 4 5) false
      ⟨by norm_num, by decide, by decide, by decide⟩
      (finalTable 2026 (dateToOrdinal 2026 4 5) false) (by rfl)).2.2.1⟩

/-- Counterexample to claim C2 (Easter 2026-04-05): the final table holds two
rows whose `feast` key is `pentecost-vigil` and no row keyed
`pentecost-vigil-extended`; the two rows are told apart by `filename` only,
so `feast_key` is not unique per emitted row. -/
theorem spec_C2_counterexample :
    ((finalTable 2026 (dateToOrdinal 2026 4 5) false).filter
      (fun r => r.feast == "pentecost-vigil")).length = 2 ∧
    (finalTable 2026 (dateToOrdinal 2026 4 5) false).all
      (fun r => r.feast != "pentecost-vigil-extended") = true := by
  constructor
  · decide
  · decide

/-- Claim C2 as amended: the Pentecost vigil is emitted as two rows sharing
the date Pentecost − 1 and sharing the single feast key `pentecost-vigil`;
the two alternate liturgies are distinguished by their `filename` values
(`easter/pentecost-vigil.qmd` vs `easter/pentecost-vigil-extended.qmd`), so
for this pair `feast_key` does not identify a unique row; both rows appear
in every final table the script actually produces (for Easter March 26/27
the season slice raises `KeyError` and no table is produced). -/
theorem spec_C2_amended (y : ℕ) (E : ℤ) (b : Bool) (h : ValidEaster y E)
    (t : List SRow) (ht : finalTable? y E b = some t) :
    pentecostDate E = E + 49 ∧
    (⟨E + 48, "pentecost-vigil", "easter/pentecost-vigil.qmd"⟩ : Row) ∈ t.map SRow.toRow ∧
    (⟨E + 48, "pentecost-vigil", "easter/pentecost-vigil-extended.qmd"⟩ : Row) ∈
      t.map SRow.toRow ∧
    ("easter/pentecost-vigil.qmd" : String) ≠ "easter/pentecost-vigil-extended.qmd" := by
  rw [finalTable?_some ht]
  obtain ⟨hm1, hm2⟩ := pentecost_vigil_rows_mem y E b h
  exact ⟨pentecostDate_eq E h.2.1, hm1, hm2, by decide⟩

/-- Witness for the amended C2 at Easter 2026-04-05, a run the script
completes. -/
theorem spec_C2_amended_witness :
    (ValidEaster 2026 (dateToOrdinal 2026 4 5) ∧
      finalTable? 2026 (dateToOrdinal 2026 4 5) false =
        some (finalTable 2026 (dateToOrdinal 2026 4 5) false)) ∧
      pentecostDate (dateToOrdinal 2026 4 5) = dateToOrdinal 2026 4 5 + 49 :=
  ⟨⟨⟨by norm_num, by decide, by decide, by decide⟩, by rfl⟩,
    (spec_C2_amended 2026 (dateToOrdinal 2026 4 5) false
      ⟨by norm_num, by decide, by decide, by decide⟩
      (finalTable 2026 (dateToOrdinal 2026 4 5) false) (by rfl)).1⟩

theorem ot_key_ne (i : ℕ) (t : String) (ht : t.data.head? ≠ some 'o') : mkKey "ot" i ≠ t := by
  apply ne_of_data_head
  rw [mkKey_data_head "ot" 'o' ['t'] rfl i]
  exact fun he => ht he.symm

/-- Helper for claim C7: over the (possibly never-emitted) annotated table,
with the flag unset `easter07` is absent and Easter + 42 carries `ascension`;
with the flag set `easter07` is retained and a distinct `ascension` row is
dated Easter + 39. -/
theorem ascension_rows_final_mem (y : ℕ) (E : ℤ) (h : ValidEaster y E) :
    (∀ s ∈ finalTable y E false, s.feast ≠ "easter07") ∧
    (⟨E + 42, "ascension", "easter/ascension.qmd"⟩ : Row) ∈
      (finalTable y E false).map SRow.toRow ∧
    (⟨E + 42, "easter07", "easter/easter07.qmd"⟩ : Row) ∈
      (finalTable y E true).map SRow.toRow ∧
    (⟨E + 39, "ascension", "easter/ascension.qmd"⟩ : Row) ∈
      (finalTable y E true).map SRow.toRow := by
  obtain ⟨hy, hw, h1, h2⟩ := h
  have hmemE : ∀ (bb : Bool) (r : Row), r ∈ easterRows E bb →
      (∀ g ∈ fixedAfterDrop y, g.date ≠ r.date) →
      r ∈ (finalTable y E bb).map SRow.toRow := by
    intro bb r hin hfx
    unfold finalTable
    rw [addSeasons_map_toRow]
    apply mergeFeasts_mem_movable hfx
    show _ ∈ movablePreOT (dateToOrdinal (y - 1) 12 25) E bb ++
      otWinterRows (dateToOrdinal (y - 1) 12 25) E bb ++
      otSummerRows y (dateToOrdinal (y - 1) 12 25) E bb ++ othersRows y E
    refine List.mem_append_left _ (List.mem_append_left _ (List.mem_append_left _ ?_))
    show _ ∈ adventRows (dateToOrdinal (y - 1) 12 25) ++
      christmasRows (dateToOrdinal (y - 1) 12 25) ++ lentRows E ++ triduumRows E ++
      easterRows E bb
    exact List.mem_append_right _ hin
  refine ⟨?_, ?_, ?_, ?_⟩
  · intro s hs
    have hsrow : s.toRow ∈ mergedTable y E false := by
      have := mem_toRow_of_mem_addSeasons hs
      exact this
    have hfeast : s.feast = s.toRow.feast := rfl
    rw [hfeast]
    rcases mem_mergeFeasts hsrow with hf | hm
    · have := feastsRegistry_feast (List.mem_of_mem_filter hf)
      intro he
      rw [he] at this
      simp at this
    · rcases mem_movableTable_cases hm with ha | hc | hl | ht | he | how | hos | hot
      · have := adventRows_feast ha
        intro heq
        rw [heq] at this
        simp at this
      · have := christmasRows_feast hc
        intro heq
        rw [heq] at this
        simp at this
      · have := lentRows_feast hw hl
        intro heq
        rw [heq] at this
        simp at this
      · have := triduumRows_feast hw ht
        intro heq
        rw [heq] at this
        simp at this
      · have := easterRows_transfer_feast hw he
        intro heq
        rw [heq] at this
        simp at this
      · rcases otWinterRows_feast how with ⟨i, hi⟩
        rw [hi]
        exact ot_key_ne i _ (by decide)
      · rcases otSummerRows_feast hos with ⟨i, hi⟩
        rw [hi]
        exact ot_key_ne i _ (by decide)
      · have := othersRows_feast hot
        intro heq
        rw [heq] at this
        simp at this
  · have hwin := easter_window y E ⟨hy, hw, h1, h2⟩ 42 (by norm_num) (by norm_num)
    apply hmemE false
    · rw [easterRows_eq_transfer E hw]
      simp
    · intro g hg
      exact fixed_dates_ne y hy (E + 42) hwin.1 hwin.2 g hg
  · have hwin := easter_window y E ⟨hy, hw, h1, h2⟩ 42 (by norm_num) (by norm_num)
    apply hmemE true
    · rw [easterRows_eq_thursday E hw]
      simp
    · intro g hg
      exact fixed_dates_ne y hy (E + 42) hwin.1 hwin.2 g hg
  · have hwin := easter_window y E ⟨hy, hw, h1, h2⟩ 39 (by norm_num) (by norm_num)
    apply hmemE true
    · rw [easterRows_eq_thursday E hw]
      simp
    · intro g hg
      exact fixed_dates_ne y hy (E + 39) hwin.1 hwin.2 g hg

/-- Counterexample to claim C7 (Easter 2016-03-27, a valid Easter date): the
Annunciation (March 25) supersedes the `good-friday` row in the merge, so
the `.loc['ash-wednesday':'good-friday']` season slice has no stop bound,
the script aborts with `KeyError`, and there is no final output at all for
"easter07 is absent and the Sunday carries `ascension`" to hold of. -/
theorem spec_C7_counterexample :
    ValidEaster 2016 (dateToOrdinal 2016 3 27) ∧
    (mergedTable 2016 (dateToOrdinal 2016 3 27) false).any
      (fun r => r.feast == "annunciation" && r.date == dateToOrdinal 2016 3 25) = true ∧
    (mergedTable 2016 (dateToOrdinal 2016 3 27) false).all
      (fun r => r.feast != "good-friday") = true ∧
    finalTable? 2016 (dateToOrdinal 2016 3 27) false = none := by
  refine ⟨⟨by norm_num, by decide, by decide, by decide⟩, ?_, ?_, ?_⟩
  · decide
  · decide
  · rfl

/-- Claim C7 as amended, restricted to the runs the script completes (for
Easter March 26/27 the season slice raises `KeyError` and nothing is
emitted): with the flag unset `easter07` is absent from the final table and
the Sunday 42 days after Easter carries `ascension`; with the flag set
`easter07` is retained on that Sunday and a distinct `ascension` row is
dated exactly 39 days after Easter — the two behaviours remain mutually
exclusive, selected by the flag. -/
theorem spec_C7_amended (y : ℕ) (E : ℤ) (h : ValidEaster y E)
    (tf tt : List SRow)
    (hf : finalTable? y E false = some tf) (ht : finalTable? y E true = some tt) :
    (∀ s ∈ tf, s.feast ≠ "easter07") ∧
    (⟨E + 42, "ascension", "easter/ascension.qmd"⟩ : Row) ∈ tf.map SRow.toRow ∧
    (⟨E + 42, "easter07", "easter/easter07.qmd"⟩ : Row) ∈ tt.map SRow.toRow ∧
    (⟨E + 39, "ascension", "easter/ascension.qmd"⟩ : Row) ∈ tt.map SRow.toRow := by
  rw [finalTable?_some hf, finalTable?_some ht]
  exact ascension_rows_final_mem y E h

/-- Witness for the amended C7 at Easter 2026-04-05, where both runs
complete. -/
theorem spec_C7_amended_witness :
    (ValidEaster 2026 (dateToOrdinal 2026 4 5) ∧
      finalTable? 2026 (dateToOrdinal 2026 4 5) false =
        some (finalTable 2026 (dateToOrdinal 2026 4 5) false) ∧
      finalTable? 2026 (dateToOrdinal 2026 4 5) true =
        some (finalTable 2026 (dateToOrdinal 2026 4 5) true)) ∧
      (∀ s ∈ finalTable 2026 (dateToOrdinal 2026 4 5) false, s.feast ≠ "easter07") :=
  ⟨⟨⟨by norm_num, by decide, by decide, by decide⟩, by rfl, by rfl⟩,
    (spec_C7_amended 2026 (dateToOrdinal 2026 4 5)
      ⟨by norm_num, by decide, by decide, by decide⟩
      (finalTable 2026 (dateToOrdinal 2026 4 5) false)
      (finalTable 2026 (dateToOrdinal 2026 4 5) true)
      (by rfl) (by rfl)).1⟩

/-- Counterexample to claim C4 (Easter 2023-04-09; Christmas 2022-12-25 was a
Sunday): no Holy Family row exists anywhere — the fixed registry has no
December 30 entry to supply one. -/
theorem spec_C4_counterexample :
    weekday (dateToOrdinal 2022 12 25) = 6 ∧
    (finalTable 2023 (dateToOrdinal 2023 4 9) false).all
      (fun r => r.feast != "holy-family") = true ∧
    (feastsRegistry 2023).all (fun r => r.feast != "holy-family") = true ∧
    (feastsRegistry 2023).all (fun r => r.date != dateToOrdinal 2022 12 30) = true := by
  refine ⟨by decide, ?_, by decide, by decide⟩
  decide

/-- Claim C4 as amended: when Christmas of the prior civil year falls on a
Sunday, the movable Christmas table holds exactly Epiphany and Baptism (the
next two Sundays) plus the four fixed Christmas rows, and no `holy-family`
row appears anywhere — neither in the movable table nor in the final table,
the fixed registry containing no December 30 entry. -/
theorem spec_C4_amended (y : ℕ) (E : ℤ) (b : Bool) (h : ValidEaster y E)
    (hx : weekday (dateToOrdinal (y - 1) 12 25) = 6) :
    christmasRows (dateToOrdinal (y - 1) 12 25) =
      [⟨dateToOrdinal (y - 1) 12 25 + 7, "epiphany", "christmas/epiphany.qmd"⟩,
       ⟨dateToOrdinal (y - 1) 12 25 + 14, "baptism", "christmas/baptism.qmd"⟩,
       ⟨dateToOrdinal (y - 1) 12 25, "christmas-dawn", "christmas/christmas-dawn.qmd"⟩,
       ⟨dateToOrdinal (y - 1) 12 25, "christmas-day", "christmas/christmas-day.qmd"⟩,
       ⟨dateToOrdinal (y - 1) 12 25 - 1, "christmas-eve", "christmas/christmas-eve.qmd"⟩,
       ⟨dateToOrdinal (y - 1) 12 25 - 1, "christmas-midnight",
         "christmas/christmas-midnight.qmd"⟩] ∧
    (∀ r ∈ movableTable y E b, r.feast ≠ "holy-family") ∧
    (∀ r ∈ feastsRegistry y, r.feast ≠ "holy-family") ∧
    (∀ s ∈ finalTable y E b, s.feast ≠ "holy-family") := by
  obtain ⟨hy, hw, h1, h2⟩ := h
  have hmov : ∀ r ∈ movableTable y E b, r.feast ≠ "holy-family" := by
    intro r hr
    rcases mem_movableTable_cases hr with ha | hc | hl | ht | he | how | hos | hot
    · have := adventRows_feast ha
      intro heq
      rw [heq] at this
      simp at this
    · have := christmasRows_sunday_feast hx hc
      intro heq
      rw [heq] at this
      simp at this
    · have := lentRows_feast hw hl
      intro heq
      rw [heq] at this
      simp at this
    · have := triduumRows_feast hw ht
      intro heq
      rw [heq] at this
      simp at this
    · cases b
      · have := easterRows_transfer_feast hw he
        intro heq
        rw [heq] at this
        simp at this
      · have := easterRows_thursday_feast hw he
        intro heq
        rw [heq] at this
        simp at this
    · rcases otWinterRows_feast how with ⟨i, hi⟩
      rw [hi]
      exact ot_key_ne i _ (by decide)
    · rcases otSummerRows_feast hos with ⟨i, hi⟩
      rw [hi]
      exact ot_key_ne i _ (by decide)
    · have := othersRows_feast hot
      intro heq
      rw [heq] at this
      simp at this
  have hreg : ∀ r ∈ feastsRegistry y, r.feast ≠ "holy-family" := by
    intro r hr
    have := feastsRegistry_feast hr
    intro heq
    rw [heq] at this
    simp at this
  refine ⟨christmasRows_eq_sunday _ hx, hmov, hreg, ?_⟩
  intro s hs
  have hsrow : s.toRow ∈ mergedTable y E b := mem_toRow_of_mem_addSeasons hs
  have hfeast : s.feast = s.toRow.feast := rfl
  rw [hfeast]
  rcases mem_mergeFeasts hsrow with hf | hm
  · exact hreg _ (List.mem_of_mem_filter hf)
  · exact hmov _ hm

/-- Witness for the amended C4 at Easter 2023-04-09 (Christmas 2022 fell on a
Sunday). -/
theorem spec_C4_amended_witness :
    (ValidEaster 2023 (dateToOrdinal 2023 4 9) ∧
      weekday (dateToOrdinal (2023 - 1) 12 25) = 6) ∧
      ∀ s ∈ finalTable 2023 (dateToOrdinal 2023 4 9) false, s.feast ≠ "holy-family" :=
  ⟨⟨⟨by norm_num, by decide, by decide, by decide⟩, by decide⟩,
    (spec_C4_amended 2023 (dateToOrdinal 2023 4 9) false
      ⟨by norm_num, by decide, by decide, by decide⟩ (by decide)).2.2.2⟩

/-- Claim C5: for a date carried by both the dropped-vigil fixed registry and
the movable table, the merged table holds exactly the fixed rows of that date
(full-row replacement); dates carried by only one side keep their rows
unchanged; and a movable feast key superseded this way (and occurring nowhere
else) is absent from the final table. -/
theorem spec_C5_merge_replacement (y : ℕ) (E : ℤ) (b : Bool) (d : ℤ) :
    (d ∈ (fixedAfterDrop y).map (fun r => r.date) →
      rowsAt d (mergedTable y E b) = rowsAt d (fixedAfterDrop y)) ∧
    (d ∉ (fixedAfterDrop y).map (fun r => r.date) →
      rowsAt d (mergedTable y E b) = rowsAt d (movableTable y E b)) ∧
    (∀ r ∈ movableTable y E b,
      r.date ∈ (fixedAfterDrop y).map (fun g => g.date) →
      r.feast ∉ (fixedAfterDrop y).map (fun g => g.feast) →
      (∀ r2 ∈ movableTable y E b, r2.feast = r.feast →
        r2.date ∈ (fixedAfterDrop y).map (fun g => g.date)) →
      ∀ s ∈ finalTable y E b, s.feast ≠ r.feast) := by
  refine ⟨fun hd => rowsAt_mergeFeasts_of_fixed d _ _ hd,
    fun hd => rowsAt_mergeFeasts_of_movable d _ _ hd, ?_⟩
  intro r hr hrd hrf hone s hs heq
  have hsrow : s.toRow ∈ mergedTable y E b := mem_toRow_of_mem_addSeasons hs
  have hfeast : s.feast = s.toRow.feast := rfl
  rcases mem_mergeFeasts hsrow with hf | hm
  · apply hrf
    apply List.mem_map.mpr
    refine ⟨s.toRow, hf, ?_⟩
    rw [← hfeast, heq]
  · -- a movable row that survived the merge has a date outside the fixed dates
    have hkept : s.toRow ∈ (movableTable y E b).filter
        (fun r2 => !((fixedAfterDrop y).any (fun f => f.date == r2.date))) := by
      unfold mergedTable mergeFeasts at hsrow
      rcases List.mem_append.mp (mem_sortByDate.mp hsrow) with h1 | h1
      · exfalso
        apply hrf
        apply List.mem_map.mpr
        exact ⟨s.toRow, h1, by rw [← hfeast, heq]⟩
      · exact h1
    rcases List.mem_filter.mp hkept with ⟨hmem, hnot⟩
    have hdates := hone s.toRow hmem (by rw [← hfeast, heq])
    rcases List.mem_map.mp hdates with ⟨g, hg, hgd⟩
    simp only [List.any_eq_false, Bool.not_eq_eq_eq_not, Bool.not_true] at hnot
    have hne := hnot g hg
    simp only [beq_iff_eq] at hne
    exact hne hgd

/-- Witness for C5 at Easter 2025-04-20: Immaculate Conception (Dec 8, 2024,
a Sunday) supersedes `advent02`; the superseded key is absent from the final
table and the rows at that date are exactly the fixed rows. -/
theorem spec_C5_merge_replacement_witness :
    (dateToOrdinal 2024 12 8 ∈ (fixedAfterDrop 2025).map (fun r => r.date)) ∧
    rowsAt (dateToOrdinal 2024 12 8) (mergedTable 2025 (dateToOrdinal 2025 4 20) false) =
      rowsAt (dateToOrdinal 2024 12 8) (fixedAfterDrop 2025) ∧
    (∀ s ∈ finalTable 2025 (dateToOrdinal 2025 4 20) false, s.feast ≠ "advent02") := by
  have hmain := spec_C5_merge_replacement 2025 (dateToOrdinal 2025 4 20) false
    (dateToOrdinal 2024 12 8)
  refine ⟨by decide, hmain.1 (by decide), ?_⟩
  have hadv : (⟨dateToOrdinal 2024 12 8, "advent02", "advent/advent02.qmd"⟩ : Row) ∈
      movableTable 2025 (dateToOrdinal 2025 4 20) false := by decide
  have := hmain.2.2 ⟨dateToOrdinal 2024 12 8, "advent02", "advent/advent02.qmd"⟩
    hadv (by decide) (by decide) (by decide)
  exact this

theorem setSeasonSlice_none (a b c : String) (l : List SRow)
    (ha : l.findIdx? (fun r => r.feast == a) = none) :
    setSeasonSlice a b c l = l := by
  unfold setSeasonSlice
  rw [ha]

theorem setSeasonSlice_getElem?_far (a b c : String) (l : List SRow) (k j : ℕ)
    (hkj : k ≤ j) (hb : sliceStartsAfter l a j = true) :
    (setSeasonSlice a b c l)[k]? = l[k]? := by
  unfold sliceStartsAfter at hb
  cases ha : l.findIdx? (fun r => r.feast == a) with
  | none => rw [setSeasonSlice_none a b c l ha]
  | some i =>
    rw [ha] at hb
    simp only [decide_eq_true_eq] at hb
    exact setSeasonSlice_getElem?_before a b c l i k ha (by omega)

theorem sliceStartsAfter_congr (l l' : List SRow)
    (h : l.map (fun r => r.feast) = l'.map (fun r => r.feast)) (a : String) (j : ℕ) :
    sliceStartsAfter l a j = sliceStartsAfter l' a j := by
  unfold sliceStartsAfter
  rw [findIdx?_feast_congr l l' h]

/-- Claim C1 as amended: the season slices are positional over the
date-ordered final table; a row lying between the `advent01` and `advent04`
rows receives season `advent` whatever its own key is, provided the three
later slices start after the advent span (as they do in the date-sorted
table). -/
theorem spec_C1_amended (rows : List Row) (i j k : ℕ)
    (hi : (rows.map toSRow).findIdx? (fun r => r.feast == "advent01") = some i)
    (hj : (rows.map toSRow).findIdx? (fun r => r.feast == "advent04") = some j)
    (hik : i ≤ k) (hkj : k ≤ j)
    (hc : sliceStartsAfter (rows.map toSRow) "christmas-eve" j = true)
    (hl : sliceStartsAfter (rows.map toSRow) "ash-wednesday" j = true)
    (he : sliceStartsAfter (rows.map toSRow) "easter-vigil" j = true) :
    (addSeasons rows)[k]? =
      Option.map (fun r => ⟨r.date, r.feast, r.filename, "advent"⟩) rows[k]? := by
  unfold addSeasons
  set s0 : List SRow := rows.map toSRow with hs0
  set s1 := setSeasonSlice "advent01" "advent04" "advent" s0 with hs1
  set s2 := setSeasonSlice "christmas-eve" "baptism" "christmas" s1 with hs2
  set s3 := setSeasonSlice "ash-wednesday" "good-friday" "lent" s2 with hs3
  have hf1 : s1.map (fun r => r.feast) = s0.map (fun r => r.feast) :=
    setSeasonSlice_map_feast _ _ _ _
  have hf2 : s2.map (fun r => r.feast) = s0.map (fun r => r.feast) := by
    rw [hs2, setSeasonSlice_map_feast, hf1]
  have hf3 : s3.map (fun r => r.feast) = s0.map (fun r => r.feast) := by
    rw [hs3, setSeasonSlice_map_feast, hf2]
  have step4 : (setSeasonSlice "easter-vigil" "pentecost" "easter" s3)[k]? = s3[k]? := by
    apply setSeasonSlice_getElem?_far _ _ _ _ k j hkj
    rw [sliceStartsAfter_congr s3 s0 hf3]
    exact he
  have step3 : s3[k]? = s2[k]? := by
    rw [hs3]
    apply setSeasonSlice_getElem?_far _ _ _ _ k j hkj
    rw [sliceStartsAfter_congr s2 s0 hf2]
    exact hl
  have step2 : s2[k]? = s1[k]? := by
    rw [hs2]
    apply setSeasonSlice_getElem?_far _ _ _ _ k j hkj
    rw [sliceStartsAfter_congr s1 s0 hf1]
    exact hc
  have step1 : s1[k]? = Option.map (fun r => { r with season := "advent" }) s0[k]? := by
    rw [hs1]
    exact setSeasonSlice_getElem?_set _ _ _ _ i j k hi hj hik hkj
  rw [step4, step3, step2, step1, hs0, List.getElem?_map]
  cases rows[k]? with
  | none => rfl
  | some r => rfl

/-- Counterexample to claim C1 (Easter 2026-04-05): `immaculate-conception`
(December 8, 2025) is dated between `advent01` (Nov 30) and `advent04`
(Dec 21); its key is in no season key range, so by the claim its season would
be `ordinary-time` — yet the final table assigns it `advent`, because the
season slices are positional over the date-sorted table. -/
theorem spec_C1_counterexample :
    (finalTable 2026 (dateToOrdinal 2026 4 5) false).any
      (fun r => r.feast == "immaculate-conception" && r.season == "advent" &&
        r.date == dateToOrdinal 2025 12 8) = true ∧
    seasonByKeyRange "immaculate-conception" = "ordinary-time" ∧
    (finalTable 2026 (dateToOrdinal 2026 4 5) false).any
      (fun r => r.feast == "advent01" && r.date == dateToOrdinal 2025 11 30) = true ∧
    (finalTable 2026 (dateToOrdinal 2026 4 5) false).any
      (fun r => r.feast == "advent04" && r.date == dateToOrdinal 2025 12 21) = true ∧
    dateToOrdinal 2025 11 30 < dateToOrdinal 2025 12 8 ∧
    dateToOrdinal 2025 12 8 < dateToOrdinal 2025 12 21 := by
  refine ⟨?_, by decide, ?_, ?_, by decide, by decide⟩
  · decide
  · decide
  · decide

/-- Witness for the amended C1 at Easter 2026-04-05: in the merged table the
advent span is positions 0–4 and `immaculate-conception` sits at position 2,
so the final table gives position 2 season `advent`. -/
theorem spec_C1_amended_witness :
    ((mergedTable 2026 (dateToOrdinal 2026 4 5) false).map toSRow).findIdx?
        (fun r => r.feast == "advent01") = some 0 ∧
    ((mergedTable 2026 (dateToOrdinal 2026 4 5) false).map toSRow).findIdx?
        (fun r => r.feast == "advent04") = some 4 ∧
    ((mergedTable 2026 (dateToOrdinal 2026 4 5) false)[2]?).map (fun r => r.feast) =
      some "immaculate-conception" ∧
    (addSeasons (mergedTable 2026 (dateToOrdinal 2026 4 5) false))[2]? =
      Option.map (fun r => ⟨r.date, r.feast, r.filename, "advent"⟩)
        (mergedTable 2026 (dateToOrdinal 2026 4 5) false)[2]? := by
  refine ⟨by decide, by decide, by decide, ?_⟩
  exact spec_C1_amended (mergedTable 2026 (dateToOrdinal 2026 4 5) false) 0 4 2
    (by decide) (by decide) (by norm_num) (by norm_num) (by decide) (by decide) (by decide)
